import Mathlib

/-!
# A shallow embedding of the `mini_rust_olap` query engine core

This file embeds, in Lean, the data model, operators and planner of the
`mini_rust_olap` repository (files `src/types.rs`, `src/column.rs`,
`src/execution.rs`, `src/aggregates.rs`, `src/planner.rs`) and proves or
refutes a list of claims about them.

Modelling conventions:
* Rust `i64` payloads are modelled as `Int`.  None of the embedded code
  performs overflowing `i64` arithmetic relevant to the claims (sums are
  modelled with mathematical integers, mirroring the `+=` in the source
  without the wrap-on-overflow that release-mode Rust would exhibit only
  beyond `i64` bounds).
* Rust `f64` payloads are modelled by `F64`: a rational number for finite
  floats, plus `inf`, `negInf` and a single `nan`.  Finite-float arithmetic
  is modelled exactly on `ℚ` (the source's rounding is not modelled; no
  claim below depends on rounding).  The `i64 as f64` cast is modelled as
  the exact embedding `Int → ℚ` (exact in Rust for `|i| ≤ 2^53`).
* Batches are modelled row-major: a batch is a `List Row` with
  `Row = List Value`; `batch.get(r, c)` is `List.get? r` then `List.get? c`.
  A zero-row batch (in particular the zero-column `Batch::empty()`) is `[]`.
* Fallible Rust functions returning `Result` are modelled with `Except`.
* Hash maps iterated by the source (`GroupBy`'s key map) are modelled as
  association lists in first-insertion order; this is one possible
  iteration order of the Rust `HashMap`, and all properties proved about
  the grouped output are invariant under permuting the groups.
-/

set_option maxHeartbeats 1000000

namespace MiniOlap

/-- `types.rs`: the `DataType` enumeration, ordered `Int64 < Float64 < String`
(Rust derives `Ord` from declaration order). -/
inductive DataType : Type
  | int64
  | float64
  | string
deriving DecidableEq, Repr

/-- Rust's derived `Ord` on `DataType` (declaration order), as `Ordering`. -/
def DataType.idx : DataType → Nat
  | .int64 => 0
  | .float64 => 1
  | .string => 2

/-- `DataType::cmp`, via the declaration-order index. -/
def DataType.cmpDT (a b : DataType) : Ordering :=
  if a.idx < b.idx then .lt else if b.idx < a.idx then .gt else .eq

/-- Model of an `f64` value: a rational for the finite floats plus the
infinities and a single NaN (all NaN bit patterns behave alike in the
embedded code paths). -/
inductive F64 : Type
  | finite (q : ℚ)
  | inf
  | negInf
  | nan
deriving DecidableEq, Repr

namespace F64

/-- `f64::partial_cmp`: `none` iff either operand is NaN; the infinities
compare as the extreme elements. -/
def pcmp : F64 → F64 → Option Ordering
  | nan, _ => none
  | _, nan => none
  | finite a, finite b => some (if a < b then .lt else if b < a then .gt else .eq)
  | finite _, inf => some .lt
  | finite _, negInf => some .gt
  | inf, finite _ => some .gt
  | inf, inf => some .eq
  | inf, negInf => some .gt
  | negInf, finite _ => some .lt
  | negInf, inf => some .lt
  | negInf, negInf => some .eq

/-- Rust `a < b` on `f64` (false whenever either side is NaN). -/
def ltB (a b : F64) : Bool := pcmp a b = some .lt

/-- Rust `a <= b` on `f64`. -/
def leB (a b : F64) : Bool := pcmp a b = some .lt ∨ pcmp a b = some .eq

/-- Rust `a > b` on `f64`. -/
def gtB (a b : F64) : Bool := pcmp a b = some .gt

/-- Rust `a >= b` on `f64`. -/
def geB (a b : F64) : Bool := pcmp a b = some .gt ∨ pcmp a b = some .eq

/-- Rust `a == b` on `f64` (false for NaN against anything, itself included). -/
def eqB (a b : F64) : Bool := pcmp a b = some .eq

/-- `f64` addition on the model: NaN and opposite infinities absorb, finite
values add exactly on `ℚ`. -/
def add : F64 → F64 → F64
  | nan, _ => nan
  | _, nan => nan
  | inf, negInf => nan
  | negInf, inf => nan
  | inf, _ => inf
  | _, inf => inf
  | negInf, _ => negInf
  | _, negInf => negInf
  | finite a, finite b => finite (a + b)

/-- `f64` division by a positive finite value (the only division the embedded
code performs: `AVG`'s `sum / count` with `count ≥ 1`). -/
def divPos : F64 → ℚ → F64
  | nan, _ => nan
  | inf, _ => inf
  | negInf, _ => negInf
  | finite a, c => finite (a / c)

/-- Rust `f64::min`: ignores a NaN argument unless both are NaN. -/
def minF (a b : F64) : F64 :=
  if a = nan then b else if b = nan then a else if ltB b a then b else a

/-- Rust `f64::max`: ignores a NaN argument unless both are NaN. -/
def maxF (a b : F64) : F64 :=
  if a = nan then b else if b = nan then a else if ltB a b then b else a

/-- The `i64 as f64` cast, modelled exactly. -/
def ofInt (i : Int) : F64 := finite (i : ℚ)

/-- Canonical display string of an `f64`, standing in for Rust's `Display`:
`NaN`/`inf`/`-inf` exactly as Rust prints them, and an injective encoding of
the finite values that (like Rust's shortest-round-trip decimal output)
coincides with the integer's decimal string on integral values. -/
def repr64 : F64 → String
  | nan => "NaN"
  | inf => "inf"
  | negInf => "-inf"
  | finite q => if q.den = 1 then toString q.num else toString q.num ++ "/" ++ toString q.den

end F64

/-- `types.rs`: the `Value` tagged union. -/
inductive Value : Type
  | int64 (i : Int)
  | float64 (f : F64)
  | str (s : String)
deriving DecidableEq, Repr

namespace Value

/-- `Value::data_type`. -/
def dataType : Value → DataType
  | int64 _ => .int64
  | float64 _ => .float64
  | str _ => .string

/-- `Display for Value`: the canonical string form used by group-key
equality (`GroupKey::eq` compares `to_string()` outputs). -/
def display : Value → String
  | int64 i => toString i
  | float64 f => f.repr64
  | str s => s

end Value

/-- A row: the values of one record, one per (pruned) column. -/
abbrev Row := List Value

/-- Execution errors (`ExecutionError` in `execution.rs`); the payloads a
claim does not inspect are collapsed to the constructor. -/
inductive EErr : Type
  | invalidColumnIndex (index count : Nat)
  | invalidRowIndex (index count : Nat)
  | custom (msg : String)
deriving DecidableEq, Repr

-- ===========================================================================
-- Columns (`column.rs`)
-- ===========================================================================

/-- The three concrete `Column` backings: flat typed buffers. -/
inductive Col : Type
  | intCol (data : List Int)
  | floatCol (data : List F64)
  | strCol (data : List String)
deriving DecidableEq, Repr

namespace Col

/-- `Column::data_type`. -/
def dataType : Col → DataType
  | intCol _ => .int64
  | floatCol _ => .float64
  | strCol _ => .string

/-- `Column::len`. -/
def colLen : Col → Nat
  | intCol d => d.length
  | floatCol d => d.length
  | strCol d => d.length

/-- `Column::push_value`: appends on a type match, errors (without mutating)
otherwise.  The model returns the new column. -/
def pushValue : Col → Value → Except String Col
  | intCol d, .int64 v => .ok (intCol (d ++ [v]))
  | floatCol d, .float64 v => .ok (floatCol (d ++ [v]))
  | strCol d, .str v => .ok (strCol (d ++ [v]))
  | _, _ => .error "type error"

/-- `Column::get`: the value at an index, or an out-of-bounds error. -/
def getVal : Col → Nat → Except String Value
  | intCol d, i => match d.get? i with
    | some v => .ok (.int64 v)
    | none => .error "index out of bounds"
  | floatCol d, i => match d.get? i with
    | some v => .ok (.float64 v)
    | none => .error "index out of bounds"
  | strCol d, i => match d.get? i with
    | some v => .ok (.str v)
    | none => .error "index out of bounds"

end Col

-- ===========================================================================
-- Predicates (`execution.rs`: `ComparisonOp`, `BinaryComparison`, `And`, `Or`)
-- ===========================================================================

/-- The six comparison operators. -/
inductive CompOp : Type
  | eq | ne | lt | le | gt | ge
deriving DecidableEq, Repr

/-- The match at the heart of `BinaryComparison::eval`, comparing the row's
column value (`actual`, first argument) against the predicate's constant.
Only the four ordering operators have `Int64`/`Float64` cross-type arms;
every unlisted pair falls to the final `false` arm. -/
def evalCmp : CompOp → Value → Value → Bool
  | .eq, .int64 a, .int64 b => a = b
  | .eq, .float64 a, .float64 b => F64.eqB a b
  | .eq, .str a, .str b => a = b
  | .ne, .int64 a, .int64 b => a ≠ b
  | .ne, .float64 a, .float64 b => !F64.eqB a b
  | .ne, .str a, .str b => a ≠ b
  | .lt, .int64 a, .int64 b => a < b
  | .lt, .float64 a, .float64 b => F64.ltB a b
  | .lt, .float64 a, .int64 b => F64.ltB a (F64.ofInt b)
  | .lt, .int64 a, .float64 b => F64.ltB (F64.ofInt a) b
  | .le, .int64 a, .int64 b => a ≤ b
  | .le, .float64 a, .float64 b => F64.leB a b
  | .le, .float64 a, .int64 b => F64.leB a (F64.ofInt b)
  | .le, .int64 a, .float64 b => F64.leB (F64.ofInt a) b
  | .gt, .int64 a, .int64 b => a > b
  | .gt, .float64 a, .float64 b => F64.gtB a b
  | .gt, .float64 a, .int64 b => F64.gtB a (F64.ofInt b)
  | .gt, .int64 a, .float64 b => F64.gtB (F64.ofInt a) b
  | .ge, .int64 a, .int64 b => a ≥ b
  | .ge, .float64 a, .float64 b => F64.geB a b
  | .ge, .float64 a, .int64 b => F64.geB a (F64.ofInt b)
  | .ge, .int64 a, .float64 b => F64.geB (F64.ofInt a) b
  | _, _, _ => false

/-- Predicate trees: `BinaryComparison` leaves under `And`/`Or`. -/
inductive Pred : Type
  | cmp (columnIndex : Nat) (op : CompOp) (value : Value)
  | and (left right : Pred)
  | or (left right : Pred)
deriving DecidableEq, Repr

/-- Row access standing in for `Batch::get(row, col)` (row-major view);
errors out of range like the source. -/
def rowGet (r : Row) (c : Nat) : Except EErr Value :=
  match r.get? c with
  | some v => .ok v
  | none => .error (.invalidColumnIndex c r.length)

/-- `Predicate::eval` on one row; `And`/`Or` short-circuit exactly as the
source does. -/
def Pred.eval : Pred → Row → Except EErr Bool
  | .cmp c op v, r => do
      let actual ← rowGet r c
      pure (evalCmp op actual v)
  | .and l rgt, r => do
      let lv ← l.eval r
      if lv then rgt.eval r else pure false
  | .or l rgt, r => do
      let lv ← l.eval r
      if lv then pure true else rgt.eval r

-- ===========================================================================
-- Filter (`execution.rs`: `Filter::next_batch`)
-- ===========================================================================

/-- The predicate-evaluation loop of `Filter::next_batch`: keeps exactly the
rows on which the predicate holds (the source collects matching row indices
and rebuilds each column at those indices, which row-major is a filter). -/
def filterRows (p : Pred) : List Row → Except EErr (List Row)
  | [] => .ok []
  | r :: rs => do
      let b ← p.eval r
      let rest ← filterRows p rs
      pure (if b then r :: rest else rest)

/-- `Filter::next_batch`, with the child stream modelled as the list of
batches it has yet to yield.  Returns the produced batch (or `none` at
exhaustion) together with the remaining child stream.  Mirrors the source:
an *empty* child batch is returned as-is; a non-empty batch with zero
matches causes a recursive pull of the next child batch. -/
def filterNext (p : Pred) : List (List Row) → Except EErr (Option (List Row) × List (List Row))
  | [] => .ok (none, [])
  | b :: rest =>
      if b.length = 0 then .ok (some b, rest)
      else do
        let matched ← filterRows p b
        if matched.isEmpty then filterNext p rest
        else .ok (some matched, rest)

-- ===========================================================================
-- Limit (`execution.rs`: `Batch::skip_rows`, `Batch::take_rows`, `Limit`)
-- ===========================================================================

/-- `Batch::skip_rows`: drops the first `skipCount` rows, erroring when
`skipCount ≥ row_count` (the source materializes fresh columns; row-major
that is `List.drop`). -/
def skipRowsE (skipCount : Nat) (b : List Row) : Except EErr (List Row) :=
  if skipCount ≥ b.length then .error (.custom "cannot skip") else .ok (b.drop skipCount)

/-- `Batch::take_rows`: keeps the first `takeCount` rows, erroring when
`takeCount > row_count`. -/
def takeRowsE (takeCount : Nat) (b : List Row) : Except EErr (List Row) :=
  if takeCount > b.length then .error (.custom "cannot take") else .ok (b.take takeCount)

/-- The mutable state of a `Limit` operator: the child's remaining batches
plus the `rows_skipped` and `rows_returned` counters. -/
structure LimitState : Type where
  batches : List (List Row)
  skipped : Nat
  returned : Nat
deriving DecidableEq, Repr

/-- `Limit::next_batch` for `limit = L`, `offset = O`, on the state's
components: checks the short-circuit first, pulls a batch, applies the
offset (skipping whole batches recursively, slicing a straddling one via
`skip_rows`), trims via `take_rows` when the batch would exceed the limit,
and — as in the source — answers `None` when the batch it ended up with is
empty.  With no batches left, both the short-circuit and the pull produce
`None` with the state unchanged, so the two source branches are merged. -/
def limitNextAux (L O : Nat) : List (List Row) → Nat → Nat → Except EErr (Option (List Row) × LimitState)
  | [], s, r => .ok (none, ⟨[], s, r⟩)
  | b :: rest, s, r =>
    if L ≤ r then .ok (none, ⟨b :: rest, s, r⟩)
    else if s < O ∧ s + b.length ≤ O then
      limitNextAux L O rest (s + b.length) r
    else do
      let b1 ← if s < O then skipRowsE (O - s) b else pure b
      let s1 := if s < O then s + (O - s) else s
      let b2 ← if b1.length > L - r then takeRowsE (L - r) b1 else pure b1
      let r1 := r + b2.length
      if b2.isEmpty then pure (none, ⟨rest, s1, r1⟩)
      else pure (some b2, ⟨rest, s1, r1⟩)

/-- `Limit::next_batch` on a `LimitState`. -/
def limitNext (L O : Nat) (st : LimitState) : Except EErr (Option (List Row) × LimitState) :=
  limitNextAux L O st.batches st.skipped st.returned

/-- The caller's drive loop over `Limit` (concatenation of all batches the
operator yields before its first `None`), fused with `limitNext` so the
recursion is structural on the child's batch list.  `limitRun_eq_drive`
below proves this function is exactly the drive loop of `limitNext`. -/
def limitRun (L O : Nat) : List (List Row) → Nat → Nat → Except EErr (List Row)
  | [], _, _ => .ok []
  | b :: rest, s, r =>
    if L ≤ r then .ok []
    else if s < O ∧ s + b.length ≤ O then limitRun L O rest (s + b.length) r
    else do
      let b1 ← if s < O then skipRowsE (O - s) b else pure b
      let s1 := if s < O then s + (O - s) else s
      let b2 ← if b1.length > L - r then takeRowsE (L - r) b1 else pure b1
      if b2.isEmpty then pure []
      else do
        let rest' ← limitRun L O rest s1 (r + b2.length)
        pure (b2 ++ rest')

/-- `limitRun` is the drive loop of `limitNext`: pull one batch, stop at
`None`, otherwise prepend and continue from the successor state. -/
theorem limitRun_eq_drive (L O : Nat) (bs : List (List Row)) (s r : Nat) :
    limitRun L O bs s r =
      (limitNextAux L O bs s r).bind fun res =>
        match res with
        | (none, _) => .ok []
        | (some b, st') => (limitRun L O st'.batches st'.skipped st'.returned).map (b ++ ·) := by
  induction bs generalizing s r with
  | nil => simp [limitRun, limitNextAux, Except.bind]
  | cons b rest ih =>
      by_cases hLr : L ≤ r
      · simp [limitRun, limitNextAux, hLr, Except.bind]
      · by_cases hskip : s < O ∧ s + b.length ≤ O
        · simp only [limitRun, limitNextAux, hLr, if_false, hskip, if_true]
          exact ih (s + b.length) r
        · by_cases hsO : s < O
          · have hbl : ¬ s + b.length ≤ O := fun hh => hskip ⟨hsO, hh⟩
            cases h1 : skipRowsE (O - s) b with
            | error e =>
                simp [limitRun, limitNextAux, hLr, hskip, hsO, hbl, h1, bind, Except.bind]
            | ok b1 =>
                by_cases hlen : L - r < b1.length
                · cases h2 : takeRowsE (L - r) b1 with
                  | error e =>
                      simp [limitRun, limitNextAux, hLr, hskip, hsO, hbl, h1, hlen, h2,
                        bind, Except.bind]
                  | ok b2 =>
                      by_cases hemp : b2.isEmpty
                      · simp [limitRun, limitNextAux, hLr, hskip, hsO, hbl, h1, hlen, h2, hemp,
                          bind, Except.bind, pure, Except.pure]
                      · simp only [limitRun, limitNextAux, hLr, hskip, hsO, hbl, h1, hlen, h2, hemp,
                          if_true, if_false, bind, Except.bind, pure, Except.pure, Except.map,
                          and_true, and_false, if_neg, not_false_iff]
                        rcases hv : limitRun L O rest (s + (O - s)) (r + b2.length) with _ | _ <;> simp [hv, Except.map]
                · by_cases hemp : b1.isEmpty
                  · simp [limitRun, limitNextAux, hLr, hskip, hsO, hbl, h1, hlen, hemp,
                      bind, Except.bind, pure, Except.pure]
                  · simp only [limitRun, limitNextAux, hLr, hskip, hsO, hbl, h1, hlen, hemp,
                      if_true, if_false, bind, Except.bind, pure, Except.pure, Except.map]
                    rcases hv : limitRun L O rest (s + (O - s)) (r + b1.length) with _ | _ <;> simp [hv, Except.map]
          · by_cases hlen : L - r < b.length
            · cases h2 : takeRowsE (L - r) b with
              | error e =>
                  simp [limitRun, limitNextAux, hLr, hskip, hsO, hlen, h2, bind, Except.bind,
                    pure, Except.pure]
              | ok b2 =>
                  by_cases hemp : b2.isEmpty
                  · simp [limitRun, limitNextAux, hLr, hskip, hsO, hlen, h2, hemp,
                      bind, Except.bind, pure, Except.pure]
                  · simp only [limitRun, limitNextAux, hLr, hskip, hsO, hlen, h2, hemp,
                      if_true, if_false, bind, Except.bind, pure, Except.pure, Except.map]
                    rcases hv : limitRun L O rest s (r + b2.length) with _ | _ <;> simp [hv, Except.map]
            · by_cases hemp : b.isEmpty
              · simp [limitRun, limitNextAux, hLr, hskip, hsO, hlen, hemp,
                  bind, Except.bind, pure, Except.pure]
              · simp only [limitRun, limitNextAux, hLr, hskip, hsO, hlen, hemp,
                  if_true, if_false, bind, Except.bind, pure, Except.pure, Except.map]
                rcases hv : limitRun L O rest s (r + b.length) with _ | _ <;> simp [hv, Except.map]

-- ===========================================================================
-- Sort (`execution.rs`: `Sort::open` / `Sort::next_batch`, `types.rs`:
-- `SortDirection`)
-- ===========================================================================

/-- `types.rs`: `SortDirection`. -/
inductive SortDir : Type
  | ascending
  | descending
deriving DecidableEq, Repr

/-- Lexicographic `<` on character lists by code point, evaluable by the
kernel; agrees with Rust's byte-lexicographic `str` ordering (UTF-8 byte
order preserves code-point order). -/
def charListLt : List Char → List Char → Bool
  | [], [] => false
  | [], _ :: _ => true
  | _ :: _, [] => false
  | c :: cs, d :: ds =>
      if c.toNat < d.toNat then true
      else if d.toNat < c.toNat then false
      else charListLt cs ds

/-- `String` `<` (used by `String::cmp` and the string MIN/MAX). -/
def strLtB (a b : String) : Bool := charListLt a.data b.data

/-- `String::cmp`. -/
def strCmp (a b : String) : Ordering :=
  if strLtB a b then .lt else if strLtB b a then .gt else .eq

theorem charListLt_asymm : ∀ a b : List Char, charListLt a b = true → charListLt b a = false := by
  intro a
  induction a with
  | nil => intro b h; cases b <;> simp_all [charListLt]
  | cons c cs ih =>
      intro b h
      cases b with
      | nil => simp [charListLt] at h
      | cons d ds =>
          simp only [charListLt] at h ⊢
          by_cases h1 : c.toNat < d.toNat
          · simp [Nat.lt_asymm h1, h1]
          · by_cases h2 : d.toNat < c.toNat
            · simp [h1, h2] at h
            · have h3 : ¬ d.toNat < c.toNat := h2
              simp only [h1, h2, if_false] at h ⊢
              exact ih ds h

theorem strCmp_swap (a b : String) : strCmp b a = (strCmp a b).swap := by
  unfold strCmp
  by_cases h1 : strLtB a b
  · have h2 : strLtB b a = false := charListLt_asymm _ _ h1
    simp [h1, h2, Ordering.swap]
  · by_cases h2 : strLtB b a
    · simp [h1, h2, Ordering.swap]
    · simp [h1, h2, Ordering.swap]

/-- Three-way comparison from a linear order (`if a < b { Less } …`),
used to model `i64::cmp`, `String::cmp` and the finite-float comparison. -/
def cmpOrd {α : Type _} [LinearOrder α] (x y : α) : Ordering :=
  if x < y then .lt else if y < x then .gt else .eq

/-- The per-value comparison of `Sort::open`'s `sort_by` closure:
native ordering within a type, `partial_cmp(..).unwrap_or(Equal)` for
floats (NaN compares as equal), and the `DataType` ordering as the
cross-type fallback. -/
def valueCmp : Value → Value → Ordering
  | .int64 a, .int64 b => cmpOrd a b
  | .float64 a, .float64 b => (F64.pcmp a b).getD .eq
  | .str a, .str b => strCmp a b
  | a, b => DataType.cmpDT a.dataType b.dataType

/-- The whole `sort_by` closure: walk the (column, direction) priority list,
return the first non-equal per-column comparison (reversed for a descending
column), else `Equal`.  The source indexes `row[col]` directly (panicking
out of range); the model supplies a default that the in-range hypotheses of
the theorems below make irrelevant. -/
def rowCmp : List (Nat × SortDir) → Row → Row → Ordering
  | [], _, _ => .eq
  | (c, d) :: rest, a, b =>
      let cmp := valueCmp (a.getD c (.int64 0)) (b.getD c (.int64 0))
      if cmp ≠ .eq then (if d = .descending then cmp.swap else cmp)
      else rowCmp rest a b

/-- Stable insertion: place `x` before the first element `y` with
`cmp x y ≠ Greater`. -/
def insertRow {α : Type _} (cmp : α → α → Ordering) (x : α) : List α → List α
  | [] => [x]
  | y :: ys => if cmp x y = .gt then y :: insertRow cmp x ys else x :: y :: ys

/-- Stable sort by a three-way comparator.  Rust's `slice::sort_by` is a
stable sort; on the antisymmetric comparators built by `Sort::open` a
stable sort's output is exactly the stable insertion sort's output, which
is what the model computes. -/
def stableSort {α : Type _} (cmp : α → α → Ordering) : List α → List α
  | [] => []
  | x :: xs => insertRow cmp x (stableSort cmp xs)

/-- `Sort::open`: drain the child (modelled as its flattened rows) and
stably sort by the declared priority list. -/
def sortOpen (sortCols : List (Nat × SortDir)) (rows : List Row) : List Row :=
  stableSort (rowCmp sortCols) rows

/-- `Sort::next_batch`: serve `[cur, min (cur+bsz) total)` of the sorted
data and advance the cursor; `None` at or past the end. -/
def sortNext (bsz : Nat) (sorted : List Row) (cur : Nat) : Option (List Row) × Nat :=
  if sorted.length ≤ cur then (none, cur)
  else (some ((sorted.drop cur).take (min (cur + bsz) sorted.length - cur)),
        min (cur + bsz) sorted.length)

/-- The drive loop over `Sort::next_batch` from a cursor: concatenation of
all served batches (`bsz = 0` is degenerate — the source would serve empty
batches forever — and is mapped to the empty result; the claim theorem
assumes `1 ≤ bsz`). -/
def sortDrive (bsz : Nat) (sorted : List Row) (cur : Nat) : List Row :=
  if h : bsz = 0 ∨ sorted.length ≤ cur then []
  else (sorted.drop cur).take bsz ++ sortDrive bsz sorted (cur + bsz)
termination_by sorted.length - cur
decreasing_by
  push_neg at h
  omega

section SortLemmas

variable {α : Type _} (cmp : α → α → Ordering)

theorem insertRow_perm (x : α) (l : List α) : (insertRow cmp x l).Perm (x :: l) := by
  induction l with
  | nil => simp [insertRow]
  | cons y ys ih =>
      by_cases h : cmp x y = .gt
      · simp only [insertRow, h, if_true]
        exact ((ih).cons y).trans (List.Perm.swap x y ys)
      · simp [insertRow, h]

theorem stableSort_perm (l : List α) : (stableSort cmp l).Perm l := by
  induction l with
  | nil => simp [stableSort]
  | cons x xs ih =>
      exact (insertRow_perm cmp x (stableSort cmp xs)).trans (ih.cons x)

theorem chain'_insertRow (hswap : ∀ a b, cmp b a = (cmp a b).swap) (x : α) (l : List α)
    (hl : l.Chain' (fun a b => cmp a b ≠ .gt)) :
    (insertRow cmp x l).Chain' (fun a b => cmp a b ≠ .gt) := by
  induction l with
  | nil => simp [insertRow]
  | cons y ys ih =>
      by_cases h : cmp x y = .gt
      · simp only [insertRow, h, if_true]
        have hys := hl.tail
        have hins := ih hys
        refine List.Chain'.cons' hins ?_
        intro z hz
        cases hys' : ys with
        | nil =>
            subst hys'
            simp [insertRow] at hz
            subst hz
            rw [hswap]
            simp [h, Ordering.swap]
        | cons w ws =>
            subst hys'
            by_cases hw : cmp x w = .gt
            · simp only [insertRow, hw, if_true, List.head?_cons, Option.mem_def,
                Option.some.injEq] at hz
              subst hz
              exact List.chain'_cons.1 hl |>.1
            · simp only [insertRow, hw, if_false, List.head?_cons, Option.mem_def,
                Option.some.injEq] at hz
              subst hz
              rw [hswap]
              simp [h, Ordering.swap]
      · simp only [insertRow, h, if_false]
        exact hl.cons h

theorem stableSort_chain' (hswap : ∀ a b, cmp b a = (cmp a b).swap) (l : List α) :
    (stableSort cmp l).Chain' (fun a b => cmp a b ≠ .gt) := by
  induction l with
  | nil => simp [stableSort]
  | cons x xs ih => exact chain'_insertRow cmp hswap x _ ih

/-- Inserting a pair whose comparator only reads the second component
commutes with projecting the second component. -/
theorem insertRow_map_snd {α : Type _} (cmp : α → α → Ordering)
    (p : Nat × α) (l : List (Nat × α)) :
    (insertRow (fun a b => cmp a.2 b.2) p l).map Prod.snd =
      insertRow cmp p.2 (l.map Prod.snd) := by
  induction l with
  | nil => simp [insertRow]
  | cons y ys ih =>
      by_cases h : cmp p.2 y.2 = .gt
      · simp [insertRow, h, ih]
      · simp [insertRow, h]

/-- The index-tagged sort projects onto the plain sort. -/
theorem stableSortIdx_map_snd {α : Type _} (cmp : α → α → Ordering)
    (l : List (Nat × α)) :
    (stableSort (fun a b => cmp a.2 b.2) l).map Prod.snd =
      stableSort cmp (l.map Prod.snd) := by
  induction l with
  | nil => simp [stableSort]
  | cons x xs ih => simp [stableSort, insertRow_map_snd, ih]

/-- Stability of the insertion step: if the inserted pair's index is below
every index already present, then any two pairs of the result whose values
compare equal appear in increasing index order. -/
theorem pairwise_insertRow {α : Type _} (cmp : α → α → Ordering)
    (hswap : ∀ a b, cmp b a = (cmp a b).swap)
    (p : Nat × α) (l : List (Nat × α))
    (hidx : ∀ q ∈ l, p.1 < q.1)
    (hl : l.Pairwise (fun a b => cmp a.2 b.2 = .eq → a.1 < b.1)) :
    (insertRow (fun a b => cmp a.2 b.2) p l).Pairwise
      (fun a b => cmp a.2 b.2 = .eq → a.1 < b.1) := by
  induction l with
  | nil => simp [insertRow]
  | cons y ys ih =>
      by_cases h : cmp p.2 y.2 = .gt
      · simp only [insertRow, h, if_true]
        refine List.Pairwise.cons ?_ (ih (fun q hq => hidx q (List.mem_cons_of_mem y hq)) hl.tail)
        intro z hz
        have hz' := (insertRow_perm (fun a b => cmp a.2 b.2) p ys).mem_iff.1 hz
        rcases List.mem_cons.1 hz' with hzp | hzys
        · subst hzp
          intro he
          rw [hswap, h] at he
          cases he
        · exact (List.pairwise_cons.1 hl).1 z hzys
      · simp only [insertRow, h, if_false]
        refine List.Pairwise.cons ?_ hl
        intro z hz _
        exact hidx z hz

/-- Stability of the whole sort on index-tagged inputs whose indices are
strictly increasing. -/
theorem pairwise_stableSortIdx {α : Type _} (cmp : α → α → Ordering)
    (hswap : ∀ a b, cmp b a = (cmp a b).swap)
    (l : List (Nat × α))
    (hl : l.Pairwise (fun a b => a.1 < b.1)) :
    (stableSort (fun a b => cmp a.2 b.2) l).Pairwise
      (fun a b => cmp a.2 b.2 = .eq → a.1 < b.1) := by
  induction l with
  | nil => simp [stableSort]
  | cons x xs ih =>
      refine pairwise_insertRow cmp hswap x _ ?_ (ih hl.tail)
      intro q hq
      have := (stableSort_perm (fun a b => cmp a.2 b.2) xs).mem_iff.1 hq
      exact (List.pairwise_cons.1 hl).1 q this

end SortLemmas

theorem cmpOrd_swap {α : Type _} [LinearOrder α] (x y : α) :
    cmpOrd y x = (cmpOrd x y).swap := by
  rcases lt_trichotomy x y with h | h | h
  · simp [cmpOrd, h, not_lt_of_gt h, Ordering.swap]
  · simp [cmpOrd, h, lt_irrefl, Ordering.swap]
  · simp [cmpOrd, h, not_lt_of_gt h, Ordering.swap]

theorem pcmp_swap (a b : F64) :
    F64.pcmp b a = (F64.pcmp a b).map Ordering.swap := by
  cases a <;> cases b <;> simp [F64.pcmp, Ordering.swap]
  rename_i x y
  rcases lt_trichotomy x y with h | h | h
  · simp [h, not_lt_of_gt h, Ordering.swap]
  · simp [h, lt_irrefl, Ordering.swap]
  · simp [h, not_lt_of_gt h, Ordering.swap]

theorem cmpDT_swap (a b : DataType) :
    DataType.cmpDT b a = (DataType.cmpDT a b).swap := by
  cases a <;> cases b <;> rfl

theorem valueCmp_swap (a b : Value) : valueCmp b a = (valueCmp a b).swap := by
  cases a <;> cases b <;> first
    | exact cmpOrd_swap _ _
    | exact strCmp_swap _ _
    | skip
  rename_i x y
  show (F64.pcmp y x).getD .eq = ((F64.pcmp x y).getD .eq).swap
  rw [pcmp_swap]
  rcases F64.pcmp x y with _ | o
  · rfl
  · cases o <;> rfl

theorem rowCmp_swap (cols : List (Nat × SortDir)) (a b : Row) :
    rowCmp cols b a = (rowCmp cols a b).swap := by
  induction cols with
  | nil => simp [rowCmp, Ordering.swap]
  | cons cd rest ih =>
      obtain ⟨c, d⟩ := cd
      simp only [rowCmp]
      rw [valueCmp_swap (a.getD c (.int64 0)) (b.getD c (.int64 0))]
      rcases hv : valueCmp (a.getD c (.int64 0)) (b.getD c (.int64 0)) with _ | _ | _ <;>
        cases d <;> simp [Ordering.swap, ih]

/-- Driving `Sort::next_batch` from a cursor, with a positive batch size,
serves out exactly the remaining sorted rows. -/
theorem sortDrive_eq_drop (bsz : Nat) (hb : 1 ≤ bsz) (sorted : List Row) (cur : Nat) :
    sortDrive bsz sorted cur = sorted.drop cur := by
  have hbz : bsz ≠ 0 := by omega
  by_cases hend : sorted.length ≤ cur
  · rw [sortDrive]
    simp [hend, List.drop_eq_nil_of_le hend, hbz]
  · rw [sortDrive]
    simp only [hbz, hend, or_self, dite_false, false_or]
    have hrec := sortDrive_eq_drop bsz hb sorted (cur + bsz)
    rw [hrec]
    have hdd : List.drop (cur + bsz) sorted = List.drop bsz (List.drop cur sorted) := by
      rw [List.drop_drop, Nat.add_comm]
    rw [hdd, List.take_append_drop]
  termination_by sorted.length - cur
  decreasing_by omega

-- ===========================================================================
-- Aggregate functions (`aggregates.rs`)
-- ===========================================================================

/-- The states of the five aggregate implementations: `CountAggregate`,
the two `SumAggregate` variants, the three `MinAggregate` / `MaxAggregate`
variants each, and `AvgAggregate`. -/
inductive Agg : Type
  | count (n : Int)
  | sumInt (s : Int)
  | sumFloat (s : F64)
  | minInt (m : Option Int)
  | minFloat (m : Option F64)
  | minStr (m : Option String)
  | maxInt (m : Option Int)
  | maxFloat (m : Option F64)
  | maxStr (m : Option String)
  | avg (sum : F64) (cnt : Int)
deriving DecidableEq, Repr

namespace Agg

/-- `AggregateFunction::update`: `None` is skipped everywhere; `COUNT`
counts any `Some`; the numeric aggregates accumulate (a `Float64` SUM and
`AVG` widen `Int64` inputs); `MIN`/`MAX` keep the extremum (ties keep the
incoming value, mirroring the source's `if m < v { m } else { v }`);
incompatible value types are type errors. -/
def update : Agg → Option Value → Except String Agg
  | a, none => .ok a
  | count n, some _ => .ok (count (n + 1))
  | sumInt s, some (.int64 v) => .ok (sumInt (s + v))
  | sumFloat s, some (.float64 v) => .ok (sumFloat (s.add v))
  | sumFloat s, some (.int64 v) => .ok (sumFloat (s.add (F64.ofInt v)))
  | minInt m, some (.int64 v) => .ok (minInt (some (m.elim v fun x => min x v)))
  | minFloat m, some (.float64 v) => .ok (minFloat (some (m.elim v fun x => F64.minF x v)))
  | minStr m, some (.str v) => .ok (minStr (some (m.elim v fun x => if strLtB x v then x else v)))
  | maxInt m, some (.int64 v) => .ok (maxInt (some (m.elim v fun x => max x v)))
  | maxFloat m, some (.float64 v) => .ok (maxFloat (some (m.elim v fun x => F64.maxF x v)))
  | maxStr m, some (.str v) => .ok (maxStr (some (m.elim v fun x => if strLtB v x then x else v)))
  | avg sum cnt, some (.int64 v) => .ok (avg (sum.add (F64.ofInt v)) (cnt + 1))
  | avg sum cnt, some (.float64 v) => .ok (avg (sum.add v) (cnt + 1))
  | _, some _ => .error "type error"

/-- `AggregateFunction::result`. -/
def result : Agg → Option Value
  | count n => some (.int64 n)
  | sumInt s => some (.int64 s)
  | sumFloat s => some (.float64 s)
  | minInt m => m.map .int64
  | minFloat m => m.map .float64
  | minStr m => m.map .str
  | maxInt m => m.map .int64
  | maxFloat m => m.map .float64
  | maxStr m => m.map .str
  | avg sum cnt => if cnt = 0 then none else some (.float64 (sum.divPos (cnt : ℚ)))

/-- `AggregateFunction::reset`. -/
def reset : Agg → Agg
  | count _ => count 0
  | sumInt _ => sumInt 0
  | sumFloat _ => sumFloat (.finite 0)
  | minInt _ => minInt none
  | minFloat _ => minFloat none
  | minStr _ => minStr none
  | maxInt _ => maxInt none
  | maxFloat _ => maxFloat none
  | maxStr _ => maxStr none
  | avg _ _ => avg (.finite 0) 0

/-- `AggregateFunction::data_type`. -/
def dtype : Agg → DataType
  | count _ => .int64
  | sumInt _ => .int64
  | sumFloat _ => .float64
  | minInt _ => .int64
  | minFloat _ => .float64
  | minStr _ => .string
  | maxInt _ => .int64
  | maxFloat _ => .float64
  | maxStr _ => .string
  | avg _ _ => .float64

/-- The input `DataType`s an aggregate state accepts without a type error
(readable off `update`'s arms). -/
def accepts : Agg → DataType → Bool
  | count _, _ => true
  | sumInt _, .int64 => true
  | sumFloat _, .int64 => true
  | sumFloat _, .float64 => true
  | minInt _, .int64 => true
  | minFloat _, .float64 => true
  | minStr _, .string => true
  | maxInt _, .int64 => true
  | maxFloat _, .float64 => true
  | maxStr _, .string => true
  | avg _ _, .int64 => true
  | avg _ _, .float64 => true
  | _, _ => false

/-- Whether `result` is guaranteed `Some`: always for `COUNT`/`SUM`,
after at least one accumulated value for `MIN`/`MAX`/`AVG`. -/
def hasValue : Agg → Bool
  | count _ => true
  | sumInt _ => true
  | sumFloat _ => true
  | minInt m => m.isSome
  | minFloat m => m.isSome
  | minStr m => m.isSome
  | maxInt m => m.isSome
  | maxFloat m => m.isSome
  | maxStr m => m.isSome
  | avg _ cnt => cnt ≠ 0

end Agg

-- ===========================================================================
-- GroupBy (`execution.rs`: `GroupKey`, `GroupBy::open`, `GroupBy::next_batch`)
-- ===========================================================================

/-- A group key: the group-by column values of one row, each wrapped in
`Some` exactly as `GroupBy::open` builds them. -/
abbrev GKey := List (Option Value)

/-- The canonical-string image of a key; `GroupKey::eq` compares keys by
equality of exactly these images (`None` matches only `None`, two `Some`s
compare by `to_string()`). -/
def keyReprL (k : GKey) : List (Option String) := k.map (Option.map Value.display)

/-- `GroupKey` equality. -/
def keyEq (a b : GKey) : Bool := keyReprL a == keyReprL b

/-- The key of one row: `batch.get` each group-by column, wrap in `Some`. -/
def keyOfE (gb : List Nat) (r : Row) : Except EErr GKey :=
  gb.mapM fun c => (rowGet r c).map some

/-- Spec-side total key image of a row, used to state the distinct-key
count: the canonical strings of the group-by columns. -/
def specKey (gb : List Nat) (r : Row) : List (Option String) :=
  gb.map fun c => (r.get? c).map Value.display

/-- `grouped_data.entry(key).or_default().push(row)` on the association-list
model: append the row to its group, or open a new group at the end. -/
def insertGroup : List (GKey × List Row) → GKey → Row → List (GKey × List Row)
  | [], k, r => [(k, [r])]
  | (k', rs) :: rest, k, r =>
      if keyEq k' k then (k', rs ++ [r]) :: rest
      else (k', rs) :: insertGroup rest k r

/-- The grouping loop of `GroupBy::open` over the drained child rows.
The source also stores each row's values re-wrapped in `Some`; since every
stored entry is `Some`, the model stores the row itself. -/
def buildGroups (gb : List Nat) (rows : List Row) : Except EErr (List (GKey × List Row)) :=
  rows.foldlM (fun gs r => do
    let k ← keyOfE gb r
    pure (insertGroup gs k r)) []

/-- The state a successful `GroupBy::open` leaves behind. -/
structure GroupByState : Type where
  colTypes : List DataType
  gbCols : List Nat
  agCols : List Nat
  aggs : List Agg
  groups : List (GKey × List Row)
  resultsReturned : Bool
deriving Repr

/-- `GroupBy::open`: validate the group-by and aggregate column indices
against the child column count, require one aggregate per aggregate column,
then drain and group the child rows. -/
def groupByOpen (colTypes : List DataType) (gb ag : List Nat) (aggs : List Agg)
    (rows : List Row) : Except EErr GroupByState :=
  let n := colTypes.length
  if ¬ gb.all (· < n) then .error (.invalidColumnIndex 0 n)
  else if ¬ ag.all (· < n) then .error (.invalidColumnIndex 0 n)
  else if ag.length ≠ aggs.length then .error (.custom "aggregate count mismatch")
  else do
    let gs ← buildGroups gb rows
    pure ⟨colTypes, gb, ag, aggs, gs, false⟩

/-- The per-group aggregate pass of `GroupBy::next_batch`: reset, then feed
every row's value at the aggregate column (each stored value is `Some`, so
the source's `if let Some(..)` always fires). -/
def aggFoldE (a : Agg) (c : Nat) (rs : List Row) : Except EErr Agg :=
  rs.foldlM (fun st r => do
    let v ← rowGet r c
    (st.update (some v)).mapError .custom) a.reset

/-- The typed-column conversion in `GroupBy::next_batch`: a cell of the
declared type is kept, anything else (a `None` aggregate result or a
mistyped value) becomes the type's default. -/
def cellOfOption (dt : DataType) : Option Value → Value
  | some (.int64 x) => if dt = .int64 then .int64 x else cellDefault dt
  | some (.float64 x) => if dt = .float64 then .float64 x else cellDefault dt
  | some (.str s) => if dt = .string then .str s else cellDefault dt
  | none => cellDefault dt
where
  /-- The per-type default (`0`, `0.0`, `""`). -/
  cellDefault : DataType → Value
    | .int64 => .int64 0
    | .float64 => .float64 (.finite 0)
    | .string => .str ""

/-- `GroupBy::next_batch`: `None` after the first productive call or when
no groups were discovered; otherwise one output row per group. -/
def groupByBatch (st : GroupByState) : Except EErr (Option (List Row) × GroupByState) :=
  if st.resultsReturned then .ok (none, st)
  else
    let st' := { st with resultsReturned := true }
    if st.groups.isEmpty then .ok (none, st')
    else do
      let out ← st.groups.mapM fun g => do
        let aggCells ← (st.agCols.zip st.aggs).mapM fun ca => do
          let fin ← aggFoldE ca.2 ca.1 g.2
          pure (cellOfOption ca.2.dtype fin.result)
        let keyCells := (st.gbCols.zip g.1).map fun cov =>
          cellOfOption (st.colTypes.getD cov.1 .int64) cov.2
        pure (keyCells ++ aggCells)
      pure (some out, st')

-- ===========================================================================
-- TableScan / Project state machines (`execution.rs`), for the exhaustion
-- claims.  Children of pipeline operators are modelled as the list of
-- batches they have yet to yield (a drained list stays drained, which is
-- how every operator in this codebase behaves after `None`).
-- ===========================================================================

/-- `TableScan::next_batch` over the (pruned) table contents in row-major
form: serve `[cur, cur + min batchSize remaining)` and advance, `None` once
the cursor reaches the row count.  Rebuilding the typed columns cannot fail
(each value is sliced from, and pushed back into, a column of the same
declared type), so the model is total. -/
def scanNext (table : List Row) (batchSize : Nat) (cur : Nat) :
    Option (List Row) × Nat :=
  if table.length ≤ cur then (none, cur)
  else
    let n := min batchSize (table.length - cur)
    (some ((table.drop cur).take n), cur + n)

/-- `Project::next_batch`: pull one batch and select the projected columns
(`batch.column(i)` errors when an index is out of the batch's column
range; `Batch::new` of an empty selection is a panic, modelled as an
error). -/
def projNext (idxs : List Nat) :
    List (List Row) → Except EErr (Option (List Row) × List (List Row))
  | [] => .ok (none, [])
  | b :: rest =>
      let colCount := (b.headD []).length
      if ¬ idxs.all (· < colCount) then
        .error (.invalidColumnIndex 0 colCount)
      else if idxs.isEmpty then .error (.custom "panic: batch with no columns")
      else .ok (some (b.map fun r => idxs.map fun i => r.getD i (.int64 0)), rest)

-- ===========================================================================
-- Parsed-query AST (`parser.rs`) and plan trees
-- ===========================================================================

/-- `parser.rs`: `BinaryOperator`. -/
inductive BinOp : Type
  | eqOp | neOp | ltOp | gtOp | leOp | geOp | andOp | orOp | plusOp | minusOp | mulOp | divOp
deriving DecidableEq, Repr

/-- `parser.rs`: `UnaryOperator`. -/
inductive UnOp : Type
  | notOp | negOp
deriving DecidableEq, Repr

/-- `parser.rs`: `Expression`.  `NumberLiteral` keeps the source text, as in
the parser. -/
inductive Expr : Type
  | column (name : String)
  | stringLit (s : String)
  | numberLit (s : String)
  | aggregateFn (function : String) (argument : Expr)
  | binaryOp (left : Expr) (operator : BinOp) (right : Expr)
  | unaryOp (operator : UnOp) (operand : Expr)
deriving DecidableEq, Repr

/-- `parser.rs`: `SelectItem`. -/
inductive SelItem : Type
  | wildcard
  | expression (e : Expr)
deriving DecidableEq, Repr

/-- `parser.rs`: `OrderByItem`. -/
structure OrderItem : Type where
  column : String
  direction : SortDir
deriving DecidableEq, Repr

/-- `parser.rs`: `SelectStatement`. -/
structure SelectStmt : Type where
  selectItems : List SelItem
  fromTable : String
  whereClause : Option Expr
  groupBy : Option (List String)
  orderBy : Option (List OrderItem)
  limit : Option Nat
  offset : Option Nat
deriving DecidableEq, Repr

/-- `planner.rs`: `PlannerError`. -/
inductive PErr : Type
  | tableNotFound (t : String)
  | columnNotFound (c : String)
  | invalidAggregateFunction (f : String)
  | mismatchedGroupBy
  | custom (msg : String)
deriving DecidableEq, Repr

/-- A built operator tree (only the structure the planner decides; the
table behind the scan is the single resolved target table). -/
inductive Plan : Type
  | tableScan (colIdxs : List Nat)
  | filter (child : Plan) (pred : Pred)
  | project (child : Plan) (colIdxs : List Nat) (aliases : Option (List String))
  | groupByOp (child : Plan) (gbCols agCols : List Nat) (aggs : List Agg)
  | sortOp (child : Plan) (cols : List (Nat × SortDir))
  | limitOp (child : Plan) (lim : Option Nat) (off : Nat)
deriving DecidableEq, Repr

/-- Whether a plan tree contains a `Sort` node. -/
def Plan.hasSort : Plan → Bool
  | .tableScan _ => false
  | .filter c _ => c.hasSort
  | .project c _ _ => c.hasSort
  | .groupByOp c _ _ _ => c.hasSort
  | .sortOp _ _ => true
  | .limitOp c _ _ => c.hasSort

/-- Whether a plan tree contains a `Limit` node. -/
def Plan.hasLimit : Plan → Bool
  | .tableScan _ => false
  | .filter c _ => c.hasLimit
  | .project c _ _ => c.hasLimit
  | .groupByOp c _ _ _ => c.hasLimit
  | .sortOp c _ => c.hasLimit
  | .limitOp _ _ _ => true

-- ===========================================================================
-- Planner (`planner.rs`)
-- ===========================================================================

/-- The target table's metadata: its columns (name, type) in declared
order — the planner only reads `column_names()` and `schema()`. -/
structure TableMeta : Type where
  cols : List (String × DataType)
deriving DecidableEq, Repr

/-- Name → index resolution (the planner's `column_names` hash map built
from the enumerated names; table column names are unique). -/
def TableMeta.lookupIdx (t : TableMeta) (name : String) : Option Nat :=
  t.cols.findIdx? (·.1 == name)

/-- Name → type resolution (the planner's `table_schema`). -/
def TableMeta.lookupType (t : TableMeta) (name : String) : Option DataType :=
  (t.cols.find? (·.1 == name)).map (·.2)

/-- `ProjectionInfo` (without the dead `aggregate_indices` field). -/
structure ProjInfo : Type where
  needsProjection : Bool
  finalColumnIndices : List Nat
  aliases : List (Option String)
  hasAggregates : Bool
  aggregateColumns : List Nat
  aggregateFunctions : List String
deriving DecidableEq, Repr

/-- The accumulator threaded through `analyze_projection`'s item loop. -/
structure AnalyzeAcc : Type where
  fci : List Nat
  aliases : List (Option String)
  hasAgg : Bool
  aggCols : List Nat
  aggFns : List String
deriving DecidableEq, Repr

/-- One iteration of `analyze_projection`'s loop over the SELECT items.
`COUNT(*)` and aggregate-over-literal use "an arbitrary existing column"
(`column_names.values().next()` on a hash map)&#x3B; the model picks column 0
— no claim depends on which column is used. -/
def analyzeItem (t : TableMeta) (acc : AnalyzeAcc) : SelItem → Except PErr AnalyzeAcc
  | .wildcard =>
      .ok { acc with
        fci := acc.fci ++ List.range t.cols.length
        aliases := acc.aliases ++ t.cols.map (fun c => some c.1) }
  | .expression e =>
    match e with
    | .column name =>
        match t.lookupIdx name with
        | some idx => .ok { acc with fci := acc.fci ++ [idx], aliases := acc.aliases ++ [some name] }
        | none => .error (.columnNotFound name)
    | .aggregateFn fn arg =>
        let acc := { acc with hasAgg := true }
        match arg with
        | .column colName =>
            if colName = "*" then
              if t.cols.isEmpty then .error (.custom "Cannot use aggregate functions on empty table")
              else .ok { acc with
                fci := acc.fci ++ [0], aggCols := acc.aggCols ++ [0],
                aggFns := acc.aggFns ++ [fn],
                aliases := acc.aliases ++ [some (fn ++ "(*)")] }
            else match t.lookupIdx colName with
              | some idx => .ok { acc with
                  fci := acc.fci ++ [idx], aggCols := acc.aggCols ++ [idx],
                  aggFns := acc.aggFns ++ [fn],
                  aliases := acc.aliases ++ [some (fn ++ "_" ++ colName)] }
              | none => .error (.columnNotFound colName)
        | .numberLit _ =>
            if ¬ t.cols.isEmpty then
              .ok { acc with
                fci := acc.fci ++ [0], aggCols := acc.aggCols ++ [0],
                aggFns := acc.aggFns ++ [fn], aliases := acc.aliases ++ [some fn] }
            else .error (.custom "Cannot use aggregate functions on empty table")
        | .stringLit _ =>
            if ¬ t.cols.isEmpty then
              .ok { acc with
                fci := acc.fci ++ [0], aggCols := acc.aggCols ++ [0],
                aggFns := acc.aggFns ++ [fn], aliases := acc.aliases ++ [some fn] }
            else .error (.custom "Cannot use aggregate functions on empty table")
        | _ => .error (.custom "Aggregate functions must reference a column or literal")
    | .binaryOp l _ r => do
        let acc ← match l with
          | .column name =>
              match t.lookupIdx name with
              | some idx => .ok { acc with fci := acc.fci ++ [idx], aliases := acc.aliases ++ [none] }
              | none => .error (.columnNotFound name)
          | _ => .ok acc
        match r with
        | .column name =>
            match t.lookupIdx name with
            | some idx => .ok { acc with fci := acc.fci ++ [idx], aliases := acc.aliases ++ [none] }
            | none => .error (.columnNotFound name)
        | _ => .ok acc
    | .stringLit _ => .error (.custom "Literals in SELECT list are not yet supported")
    | .numberLit _ => .error (.custom "Literals in SELECT list are not yet supported")
    | .unaryOp _ operand =>
        match operand with
        | .column name =>
            match t.lookupIdx name with
            | some idx => .ok { acc with fci := acc.fci ++ [idx], aliases := acc.aliases ++ [none] }
            | none => .error (.columnNotFound name)
        | _ => .ok acc

/-- The order-preserving deduplication pass at the end of
`analyze_projection`: aggregate columns are never deduplicated, other
indices are kept at first occurrence. -/
def dedupIndices (aggCols : List Nat) :
    List (Nat × Option String) → List Nat → List (Nat × Option String)
  | [], _ => []
  | (idx, al) :: rest, seen =>
      if aggCols.contains idx ∨ ¬ seen.contains idx then
        (idx, al) :: dedupIndices aggCols rest (idx :: seen)
      else dedupIndices aggCols rest seen

/-- `Planner::analyze_projection`. -/
def analyzeProjection (t : TableMeta) (stmt : SelectStmt) : Except PErr ProjInfo := do
  let acc ← stmt.selectItems.foldlM (analyzeItem t) ⟨[], [], false, [], []⟩
  let uniq := dedupIndices acc.aggCols (acc.fci.zip acc.aliases) []
  let uniqIdx := uniq.map Prod.fst
  let uniqAl := uniq.map Prod.snd
  let needsProjection :=
    if uniqIdx.length ≠ t.cols.length then true
    else
      let indicesInOrder := uniqIdx.enum.all fun p => p.2 = p.1
      let hasAliases := uniqAl.any (·.isSome)
      !indicesInOrder || hasAliases
  pure ⟨needsProjection, uniqIdx, uniqAl, acc.hasAgg, acc.aggCols, acc.aggFns⟩

/-- `Planner::collect_expression_columns`, returning the indices it inserts
into the required-column set (for `And`/`Or` both sides, for the comparison
operators only the left side; literals and aggregates contribute nothing). -/
def collectExpr (t : TableMeta) : Expr → Except PErr (List Nat)
  | .column name =>
      match t.lookupIdx name with
      | some idx => .ok [idx]
      | none => .error (.columnNotFound name)
  | .binaryOp l op r =>
      if op = .andOp ∨ op = .orOp then do
        let ls ← collectExpr t l
        let rs ← collectExpr t r
        pure (ls ++ rs)
      else collectExpr t l
  | .unaryOp _ operand => collectExpr t operand
  | .stringLit _ => .ok []
  | .numberLit _ => .ok []
  | .aggregateFn _ _ => .ok []

/-- `i64::from_str(..).unwrap_or(0)` (the source cannot overflow-check in
the model; no claim depends on a literal's numeric value). -/
def parseIntLit (s : String) : Int := (s.toInt?).getD 0

/-- `f64::from_str(..).unwrap_or(0.0)`, modelled on decimal strings; no
claim depends on a literal's numeric value. -/
def parseFloatLit (s : String) : F64 :=
  let pos (u : String) : ℚ :=
    match u.splitOn "." with
    | [a] => ((a.toNat?).getD 0 : ℚ)
    | [a, b] => ((a.toNat?).getD 0 : ℚ) + ((b.toNat?).getD 0 : ℚ) / (10 ^ b.length : ℚ)
    | _ => 0
  if s.startsWith "-" then .finite (-(pos (s.drop 1))) else .finite (pos s)

/-- `Planner::get_literal_value`. -/
def getLiteralValue : Expr → Except PErr Value
  | .stringLit s => .ok (.str s)
  | .numberLit n =>
      if n.contains '.' then .ok (.float64 (parseFloatLit n))
      else .ok (.int64 (parseIntLit n))
  | .column name => .error (.custom ("Expected literal, found column: " ++ name))
  | _ => .error (.custom "Expected literal value")

/-- `Planner::get_column_index`: resolve a column expression to its pruned
index. -/
def getColumnIndex (t : TableMeta) (columnIndices : List Nat) : Expr → Except PErr Nat
  | .column name =>
      match t.lookupIdx name with
      | some origIdx =>
          match columnIndices.findIdx? (· = origIdx) with
          | some p => .ok p
          | none => .error (.custom ("Column '" ++ name ++ "' not found in pruned columns"))
      | none => .error (.columnNotFound name)
  | _ => .error (.custom "Expected column reference")

/-- `Planner::build_predicate`. -/
def buildPredicate (t : TableMeta) (columnIndices : List Nat) : Expr → Except PErr Pred
  | .binaryOp l op r =>
      match op with
      | .andOp => do
          let lp ← buildPredicate t columnIndices l
          let rp ← buildPredicate t columnIndices r
          pure (.and lp rp)
      | .orOp => do
          let lp ← buildPredicate t columnIndices l
          let rp ← buildPredicate t columnIndices r
          pure (.or lp rp)
      | _ => do
          let leftCol ← getColumnIndex t columnIndices l
          let rightVal ← getLiteralValue r
          let compOp ← match op with
            | .eqOp => .ok CompOp.eq
            | .neOp => .ok CompOp.ne
            | .ltOp => .ok CompOp.lt
            | .leOp => .ok CompOp.le
            | .gtOp => .ok CompOp.gt
            | .geOp => .ok CompOp.ge
            | _ => .error (.custom "Unknown operator in WHERE clause")
          pure (.cmp leftCol compOp rightVal)
  | .unaryOp .notOp _ => .error (.custom "NOT operator not yet supported in WHERE clause")
  | .unaryOp _ _ => .error (.custom "Invalid unary operator in WHERE clause")
  | _ => .error (.custom "Invalid expression in WHERE clause")

/-- `str::to_uppercase` on ASCII identifiers, character by character
(kernel-reducible stand-in for `String.toUpper`). -/
def toUpperS (s : String) : String := ⟨s.data.map Char.toUpper⟩

/-- `Planner::create_aggregate_function` (matching on the upper-cased
name), returning the freshly constructed aggregate state. -/
def createAggregateFunction (name : String) (dt : DataType) : Except PErr Agg :=
  match toUpperS name with
  | "COUNT" => .ok (.count 0)
  | "SUM" =>
      match dt with
      | .int64 => .ok (.sumInt 0)
      | .float64 => .ok (.sumFloat (.finite 0))
      | .string => .error (.custom "SUM cannot be applied to String")
  | "AVG" =>
      match dt with
      | .int64 => .ok (.avg (.finite 0) 0)
      | .float64 => .ok (.avg (.finite 0) 0)
      | .string => .error (.custom "AVG cannot be applied to String")
  | "MIN" =>
      match dt with
      | .int64 => .ok (.minInt none)
      | .float64 => .ok (.minFloat none)
      | .string => .ok (.minStr none)
  | "MAX" =>
      match dt with
      | .int64 => .ok (.maxInt none)
      | .float64 => .ok (.maxFloat none)
      | .string => .ok (.maxStr none)
  | _ => .error (.invalidAggregateFunction name)

/-- One iteration of the ORDER BY column-resolution loop of `plan_select`
(`needs_groupby` is re-derived inside the loop in the source; when it is
`true` this code is in fact unreachable, because the GROUP BY branch has
already returned). -/
def sortColOf (t : TableMeta) (stmt : SelectStmt) (info : ProjInfo)
    (columnIndices : List Nat) (item : OrderItem) :
    Except PErr (Nat × SortDir) := do
  let needsGroupby := (stmt.groupBy.elim false fun g => !g.isEmpty) || info.hasAggregates
  let colIndex ←
    if needsGroupby then
      let groupbyIdx := stmt.groupBy.bind fun g => g.findIdx? (· = item.column)
      match groupbyIdx with
      | some idx => pure idx
      | none =>
          -- scan SELECT items counting aggregates, looking for a grouped column
          let scan := stmt.selectItems.foldl
            (fun (st : Nat × Bool) si =>
              if st.2 then st
              else match si with
                | .expression (.aggregateFn _ _) => (st.1 + 1, false)
                | .expression (.column colName) =>
                    if colName = item.column ∧
                        (stmt.groupBy.elim false fun g => g.contains colName) then
                      (st.1, true)
                    else st
                | _ => st)
            (0, false)
          if ¬ scan.2 then .error (.columnNotFound item.column)
          else
            let groupbyCount := stmt.groupBy.elim 0 List.length
            pure (groupbyCount + scan.1)
    else
      match t.lookupIdx item.column with
      | some origIdx =>
          match columnIndices.findIdx? (· = origIdx) with
          | some p => pure p
          | none =>
              if columnIndices.isEmpty then pure origIdx
              else .error (.columnNotFound item.column)
      | none => .error (.columnNotFound item.column)
  pure (colIndex, item.direction)

/-- The ORDER BY column-resolution loop of `plan_select`. -/
def buildSortCols (t : TableMeta) (stmt : SelectStmt) (info : ProjInfo)
    (columnIndices : List Nat) (items : List OrderItem) :
    Except PErr (List (Nat × SortDir)) :=
  items.mapM (sortColOf t stmt info columnIndices)

/-- The required-column set of `plan_select` (SELECT ∪ WHERE ∪ known GROUP
BY names), already turned into the sorted deduplicated index vector the
source builds from its `HashSet`. -/
def requiredIdx (t : TableMeta) (stmt : SelectStmt) (info : ProjInfo)
    (whereCols : List Nat) : List Nat :=
  (List.range t.cols.length).filter
    (info.finalColumnIndices ++ whereCols ++
      (stmt.groupBy.getD []).filterMap t.lookupIdx).contains

/-- The `TableScan` of `plan_select`: pruned unless the required set is
empty or covers every column (`TableScan::new` reads all columns, i.e.
the full index range). -/
def scanPlan (t : TableMeta) (columnIndices : List Nat) : Plan :=
  if columnIndices.isEmpty ∨ columnIndices.length = t.cols.length then
    .tableScan (List.range t.cols.length)
  else .tableScan columnIndices

/-- The Filter section of `plan_select`. -/
def filterStep (t : TableMeta) (stmt : SelectStmt) (columnIndices : List Nat)
    (scan : Plan) : Except PErr Plan :=
  match stmt.whereClause with
  | some w => do
      let p ← buildPredicate t columnIndices w
      pure (Plan.filter scan p)
  | none => pure scan

/-- One step of the GROUP BY branch's aggregate-construction loop:
remap the aggregate column into pruned-index space (silently skipping a
column that fails to resolve) and instantiate the aggregate for the
column's `DataType`. -/
def groupAggFold (t : TableMeta) (columnIndices : List Nat)
    (acc : List Nat × List Agg) (p : Nat × String) :
    Except PErr (List Nat × List Agg) := do
  match columnIndices.findIdx? (· = p.1) with
  | some prunedIdx =>
      let colName := (t.cols.getD p.1 ("", .int64)).1
      let dt ← match t.lookupType colName with
        | some dt => .ok dt
        | none => .error (PErr.columnNotFound colName)
      let aggf ← createAggregateFunction p.2 dt
      pure (acc.1 ++ [prunedIdx], acc.2 ++ [aggf])
  | none => pure acc

/-- The GROUP BY branch of `plan_select`: remap group-by and aggregate
columns into pruned-index space (silently skipping names or columns that
fail to resolve), construct the aggregate instances, and wrap the
`GroupBy` in a renaming `Project` when aliases exist.  The source
**returns this value immediately**, never reaching the Sort/Limit
sections. -/
def groupStep (t : TableMeta) (stmt : SelectStmt) (info : ProjInfo)
    (columnIndices : List Nat) (plan : Plan) : Except PErr Plan := do
  let gbCols := (stmt.groupBy.getD []).filterMap fun name =>
    (t.lookupIdx name).bind fun orig => columnIndices.findIdx? (· = orig)
  let pairs := info.aggregateColumns.zip info.aggregateFunctions
  let agPairs ← pairs.foldlM (groupAggFold t columnIndices) ([], [])
  let groupbyCount := gbCols.length
  let aggCount := agPairs.1.length
  let groupbyPlan := Plan.groupByOp plan gbCols agPairs.1 agPairs.2
  let aliases := info.aliases.filterMap id
  pure (if aliases.isEmpty then groupbyPlan
    else Plan.project groupbyPlan (List.range (groupbyCount + aggCount)) (some aliases))

/-- The Project section of `plan_select` (ungrouped queries only). -/
def projectStep (t : TableMeta) (info : ProjInfo) (columnIndices : List Nat)
    (plan : Plan) : Except PErr Plan :=
  if info.needsProjection then do
    let projectedColumns ← info.finalColumnIndices.mapM fun orig =>
      match columnIndices.findIdx? (· = orig) with
      | some p => Except.ok p
      | none => Except.error (PErr.custom "Column index not found in pruned columns")
    let aliases := info.aliases.filterMap id
    if aliases.isEmpty then pure (Plan.project plan projectedColumns none)
    else pure (Plan.project plan projectedColumns (some aliases))
  else pure plan

/-- The Sort section of `plan_select`. -/
def sortStep (t : TableMeta) (stmt : SelectStmt) (info : ProjInfo)
    (columnIndices : List Nat) (plan : Plan) : Except PErr Plan :=
  match stmt.orderBy with
  | some items => do
      let sortCols ← buildSortCols t stmt info columnIndices items
      pure (Plan.sortOp plan sortCols)
  | none => pure plan

/-- The Limit section of `plan_select`. -/
def limitStep (stmt : SelectStmt) (plan : Plan) : Plan :=
  if stmt.limit.isSome ∨ stmt.offset.isSome then
    Plan.limitOp plan stmt.limit (stmt.offset.getD 0)
  else plan

/-- `Planner::plan_select`, after the target table has been resolved:
analysis, pruning-set computation, then
scan → Filter? → (GroupBy branch, which returns early) /
(Project? → Sort? → Limit?). -/
def planSelect (t : TableMeta) (stmt : SelectStmt) : Except PErr Plan := do
  let info ← analyzeProjection t stmt
  let whereCols ← match stmt.whereClause with
    | some w => collectExpr t w
    | none => .ok []
  let columnIndices := requiredIdx t stmt info whereCols
  let plan ← filterStep t stmt columnIndices (scanPlan t columnIndices)
  if (stmt.groupBy.elim false fun g => !g.isEmpty) || info.hasAggregates then
    groupStep t stmt info columnIndices plan
  else do
    let plan ← projectStep t info columnIndices plan
    let plan ← sortStep t stmt info columnIndices plan
    pure (limitStep stmt plan)

/-- `Planner::plan`: resolve the target table in the catalog, then plan the
SELECT. -/
def planQuery (catalog : List (String × TableMeta)) (stmt : SelectStmt) :
    Except PErr Plan :=
  match catalog.find? (·.1 == stmt.fromTable) with
  | some t => planSelect t.2 stmt
  | none => .error (.tableNotFound stmt.fromTable)

/-- `Result::is_ok`. -/
def isOkE {ε α : Type _} : Except ε α → Bool
  | .ok _ => true
  | .error _ => false

-- ===========================================================================
-- Concrete fixtures used by witnesses and counterexamples
-- ===========================================================================

/-- A two-column `sales(product: String, amount: Int64)` table. -/
def salesT : TableMeta := ⟨[("product", .string), ("amount", .int64)]⟩

/-- `SELECT product, SUM(amount) FROM sales GROUP BY product ORDER BY
product LIMIT 1`. -/
def stmtGroupSortLimit : SelectStmt :=
  ⟨[.expression (.column "product"), .expression (.aggregateFn "SUM" (.column "amount"))],
   "sales", none, some ["product"], some [⟨"product", .ascending⟩], some 1, none⟩

/-- `SELECT product FROM sales GROUP BY bogus` — the GROUP BY names a
column that does not exist. -/
def stmtGroupByUnknown : SelectStmt :=
  ⟨[.expression (.column "product")], "sales", none, some ["bogus"], none, none, none⟩

/-- Five one-column rows with `id` 1..5 (the Filter example input). -/
def idRows : List Row :=
  [[.int64 1], [.int64 2], [.int64 3], [.int64 4], [.int64 5]]

/-- Whether an expression mentions (anywhere inside it) a column name
that is not in the table's schema. -/
def exprHasUnknown (t : TableMeta) : Expr → Bool
  | .column name => (t.lookupIdx name).isNone
  | .stringLit _ => false
  | .numberLit _ => false
  | .aggregateFn _ a => exprHasUnknown t a
  | .binaryOp l _ r => exprHasUnknown t l || exprHasUnknown t r
  | .unaryOp _ a => exprHasUnknown t a

/-- Whether a SELECT item is an aggregate call. -/
def selHasAgg : SelItem → Bool
  | .expression (.aggregateFn _ _) => true
  | _ => false

/-- `SELECT bogus FROM sales` — unknown column in the SELECT list. -/
def stmtSelectUnknown : SelectStmt :=
  ⟨[.expression (.column "bogus")], "sales", none, none, none, none, none⟩

/-- `SELECT product FROM sales WHERE bogus = 1` — unknown column in the
WHERE clause. -/
def stmtWhereUnknown : SelectStmt :=
  ⟨[.expression (.column "product")], "sales",
   some (.binaryOp (.column "bogus") .eqOp (.numberLit "1")),
   none, none, none, none⟩

/-- `SELECT product FROM sales ORDER BY bogus` — unknown column in the
ORDER BY list of an ungrouped, aggregate-free query. -/
def stmtOrderUnknown : SelectStmt :=
  ⟨[.expression (.column "product")], "sales", none, none,
   some [⟨"bogus", .ascending⟩], none, none⟩

/-- The rows stored under a given canonical-string key image (lookup by
the `GroupKey` comparison), used to reason about the grouping loop. -/
def groupRows (gs : List (GKey × List Row)) (kr : List (Option String)) : List Row :=
  ((gs.find? fun g => keyReprL g.1 == kr).map Prod.snd).getD []

/-- The spec's GroupBy example input: rows `("A",1), ("A",2), ("A",3)`. -/
def rowsA : List Row := [[.str "A", .int64 1], [.str "A", .int64 2], [.str "A", .int64 3]]

/-- The state `GroupBy::open` builds from `rowsA` grouped by column 0
with `SUM` over column 1. -/
def stA : GroupByState :=
  ⟨[.string, .int64], [0], [1], [.sumInt 0], [([some (.str "A")], rowsA)], false⟩

end MiniOlap

namespace MiniOlap

-- ===========================================================================
-- C9 — column push/get round-trip
-- ===========================================================================

/-- C9: for every `Column` and every `Value` of the column's `DataType`,
`push_value` followed by `get` at the appended index returns the value
exactly (boundary values are exercised by the witness below). -/
theorem c9_push_get_roundtrip (c : Col) (v : Value) (h : v.dataType = c.dataType) :
    ∃ c', c.pushValue v = .ok c' ∧ c'.getVal c.colLen = .ok v := by
  cases c <;> cases v <;> simp [Col.dataType, Value.dataType] at h <;>
    exact ⟨_, rfl, by simp [Col.getVal, Col.colLen, List.get?_concat_length]⟩

/-- C9 witness: the round-trip at `i64::MIN`, `i64::MAX`, the float
infinities and NaN, the empty string, and UTF-8/emoji text. -/
theorem c9_push_get_roundtrip_witness :
    (∃ c', (Col.intCol []).pushValue (.int64 (-9223372036854775808)) = .ok c' ∧
      c'.getVal (Col.intCol []).colLen = .ok (.int64 (-9223372036854775808))) ∧
    (∃ c', (Col.intCol []).pushValue (.int64 9223372036854775807) = .ok c' ∧
      c'.getVal (Col.intCol []).colLen = .ok (.int64 9223372036854775807)) ∧
    (∃ c', (Col.floatCol []).pushValue (.float64 .inf) = .ok c' ∧
      c'.getVal (Col.floatCol []).colLen = .ok (.float64 .inf)) ∧
    (∃ c', (Col.floatCol []).pushValue (.float64 .negInf) = .ok c' ∧
      c'.getVal (Col.floatCol []).colLen = .ok (.float64 .negInf)) ∧
    (∃ c', (Col.floatCol []).pushValue (.float64 .nan) = .ok c' ∧
      c'.getVal (Col.floatCol []).colLen = .ok (.float64 .nan)) ∧
    (∃ c', (Col.strCol []).pushValue (.str "") = .ok c' ∧
      c'.getVal (Col.strCol []).colLen = .ok (.str "")) ∧
    (∃ c', (Col.strCol ["héllo"]).pushValue (.str "😀🎉") = .ok c' ∧
      c'.getVal (Col.strCol ["héllo"]).colLen = .ok (.str "😀🎉")) :=
  ⟨c9_push_get_roundtrip _ _ rfl, c9_push_get_roundtrip _ _ rfl,
   c9_push_get_roundtrip _ _ rfl, c9_push_get_roundtrip _ _ rfl,
   c9_push_get_roundtrip _ _ rfl, c9_push_get_roundtrip _ _ rfl,
   c9_push_get_roundtrip _ _ rfl⟩

-- ===========================================================================
-- C3 — BinaryComparison cross-type semantics
-- ===========================================================================

/-- C3 counterexample: `=` (and `≠`) do **not** widen `Int64` against
`Float64`.  The column value `Int64 1` compared `=` against the constant
`Float64 1.0` evaluates to `false` although the two are numerically equal
(third conjunct: the widened comparison the claim describes would be
`true`), so mixed-type `=` falls into the type-mismatch-`false` rule
rather than comparing numerically. -/
theorem c3_eq_does_not_widen :
    evalCmp .eq (.int64 1) (.float64 (.finite 1)) = false ∧
    evalCmp .ne (.int64 1) (.float64 (.finite 1)) = false ∧
    F64.eqB (F64.ofInt 1) (.finite 1) = true := by decide

/-- C3 (amended): only the four ordering operators `{<, ≤, >, ≥}` compare
a mixed `Int64`/`Float64` pair numerically with the `Int64` widened to
`Float64` (conjuncts 1–8, with the widened comparison agreeing with the
rational order on finite floats, conjuncts 13–16); mixed-type `=` and `≠`,
like every comparison of a `String` against a non-`String`, evaluate to
`false` rather than erroring (conjuncts 9–12 and the final conjunct). -/
theorem c3_cross_type_comparisons (i : Int) (f : F64) (s : String) (v : Value) (op : CompOp) :
    (evalCmp .lt (.int64 i) (.float64 f) = F64.ltB (F64.ofInt i) f) ∧
    (evalCmp .le (.int64 i) (.float64 f) = F64.leB (F64.ofInt i) f) ∧
    (evalCmp .gt (.int64 i) (.float64 f) = F64.gtB (F64.ofInt i) f) ∧
    (evalCmp .ge (.int64 i) (.float64 f) = F64.geB (F64.ofInt i) f) ∧
    (evalCmp .lt (.float64 f) (.int64 i) = F64.ltB f (F64.ofInt i)) ∧
    (evalCmp .le (.float64 f) (.int64 i) = F64.leB f (F64.ofInt i)) ∧
    (evalCmp .gt (.float64 f) (.int64 i) = F64.gtB f (F64.ofInt i)) ∧
    (evalCmp .ge (.float64 f) (.int64 i) = F64.geB f (F64.ofInt i)) ∧
    (evalCmp .eq (.int64 i) (.float64 f) = false) ∧
    (evalCmp .eq (.float64 f) (.int64 i) = false) ∧
    (evalCmp .ne (.int64 i) (.float64 f) = false) ∧
    (evalCmp .ne (.float64 f) (.int64 i) = false) ∧
    (∀ q : ℚ, F64.ltB (F64.ofInt i) (.finite q) = decide ((i : ℚ) < q)) ∧
    (∀ q : ℚ, F64.leB (F64.ofInt i) (.finite q) = decide ((i : ℚ) ≤ q)) ∧
    (∀ q : ℚ, F64.gtB (F64.ofInt i) (.finite q) = decide (q < (i : ℚ))) ∧
    (∀ q : ℚ, F64.geB (F64.ofInt i) (.finite q) = decide (q ≤ (i : ℚ))) ∧
    (v.dataType ≠ .string →
      evalCmp op (.str s) v = false ∧ evalCmp op v (.str s) = false) := by
  refine ⟨rfl, rfl, rfl, rfl, rfl, rfl, rfl, rfl, rfl, rfl, rfl, rfl, ?_, ?_, ?_, ?_, ?_⟩
  · intro q
    simp only [F64.ltB, F64.ofInt, F64.pcmp]
    rcases lt_trichotomy (i : ℚ) q with h | h | h
    · simp [h]
    · simp [h, lt_irrefl]
    · simp [h, not_lt_of_gt h]
  · intro q
    simp only [F64.leB, F64.ofInt, F64.pcmp]
    rcases lt_trichotomy (i : ℚ) q with h | h | h
    · simp [h, not_lt_of_gt h, h.le]
    · simp [h, lt_irrefl]
    · simp [not_lt_of_gt h, h, not_le_of_gt h]
  · intro q
    simp only [F64.gtB, F64.ofInt, F64.pcmp]
    rcases lt_trichotomy (i : ℚ) q with h | h | h <;>
      simp [h, not_lt_of_gt, lt_irrefl]
  · intro q
    simp only [F64.geB, F64.ofInt, F64.pcmp]
    rcases lt_trichotomy (i : ℚ) q with h | h | h
    · simp [h, not_lt_of_gt h, not_le_of_gt h]
    · simp [h, lt_irrefl]
    · simp [not_lt_of_gt h, h, h.le]
  · intro hv
    cases v with
    | int64 j => exact ⟨by cases op <;> rfl, by cases op <;> rfl⟩
    | float64 g => exact ⟨by cases op <;> rfl, by cases op <;> rfl⟩
    | str u => simp [Value.dataType] at hv

/-- C3 witness for the amended theorem, at `i = 2`, `f = 1.5`, `s = "x"`,
`v = Int64 0`, `op = <`. -/
theorem c3_cross_type_comparisons_witness :
    ((Value.int64 0).dataType ≠ .string) ∧
    (evalCmp .lt (.int64 2) (.float64 (.finite (3 / 2))) =
      F64.ltB (F64.ofInt 2) (.finite (3 / 2))) ∧
    (evalCmp .lt (.str "x") (.int64 0) = false ∧ evalCmp .lt (.int64 0) (.str "x") = false) :=
  ⟨by decide,
   (c3_cross_type_comparisons 2 (.finite (3 / 2)) "x" (.int64 0) .lt).1,
   (c3_cross_type_comparisons 2 (.finite (3 / 2)) "x" (.int64 0) .lt).2.2.2.2.2.2.2.2.2.2.2.2.2.2.2.2
     (by decide)⟩

-- ===========================================================================
-- C2 — Filter never surfaces an empty-match batch
-- ===========================================================================

/-- C2 counterexample: over a child that yields an empty batch, `Filter`
returns that zero-row batch as `Some` (the source's `if batch.row_count()
== 0 { return Ok(Some(batch)) }`), so the claim's unconditional "callers
never receive a zero-row, non-None batch" fails for arbitrary children. -/
theorem c2_empty_child_batch_passthrough :
    filterNext (Pred.cmp 0 .gt (.int64 100)) [[]] = .ok (some [], []) := rfl

/-- C2 (amended): over a child none of whose batches is empty, every batch
`Filter::next_batch` returns as `Some` is non-empty — a non-empty child
batch with zero predicate matches triggers a recursive pull instead of an
empty result; and the spec's example holds: on rows with `id` 1..5 and
predicate `id > 100` the first call returns `None`. -/
theorem c2_filter_no_empty_batches (p : Pred) (batches : List (List Row))
    (hne : ∀ b ∈ batches, b ≠ []) :
    (∀ out rest, filterNext p batches = .ok (some out, rest) → out ≠ []) ∧
    filterNext (Pred.cmp 0 .gt (.int64 100)) [idRows] = .ok (none, []) := by
  constructor
  · induction batches with
    | nil => intro out rest h; simp [filterNext] at h
    | cons b bs ih =>
        intro out rest h
        have hb : b ≠ [] := hne b (List.mem_cons_self b bs)
        have hlen : ¬ b.length = 0 := by simpa [List.length_eq_zero] using hb
        simp only [filterNext, hlen, if_false] at h
        cases hm : filterRows p b with
        | error e =>
            rw [hm] at h
            simp [bind, Except.bind] at h
        | ok matched =>
            rw [hm] at h
            simp only [bind, Except.bind] at h
            by_cases hemp : matched.isEmpty
            · rw [if_pos hemp] at h
              exact ih (fun x hx => hne x (List.mem_cons_of_mem b hx)) out rest h
            · rw [if_neg hemp] at h
              cases h
              simpa [List.isEmpty_iff] using hemp
  · rfl

/-- C2 witness: the amended statement at a one-batch child `[[7]]` with the
always-true predicate `id ≥ 0` (yielding `Some [[7]]`, which is indeed
non-empty), hypotheses discharged by evaluation. -/
theorem c2_filter_no_empty_batches_witness :
    ((∀ b ∈ ([[[Value.int64 7]]] : List (List Row)), b ≠ []) ∧
      ([[Value.int64 7]] : List Row) ≠ []) ∧
    filterNext (Pred.cmp 0 .gt (.int64 100)) [idRows] = .ok (none, []) :=
  ⟨⟨by decide,
    (c2_filter_no_empty_batches (Pred.cmp 0 .ge (.int64 0)) [[[Value.int64 7]]]
        (by decide)).1
      [[Value.int64 7]] [] (by rfl)⟩,
   (c2_filter_no_empty_batches (Pred.cmp 0 .ge (.int64 0)) [[[Value.int64 7]]]
        (by decide)).2⟩

-- ===========================================================================
-- C10 — GroupBy over an empty input yields no rows
-- ===========================================================================

/-- C10: whenever `GroupBy::open` succeeds over a child with zero rows, the
first `next_batch` call returns `None` (no default-aggregate row such as
`COUNT = 0` is emitted). -/
theorem c10_groupby_empty_input (colTypes : List DataType) (gb ag : List Nat)
    (aggs : List Agg) (st : GroupByState)
    (h : groupByOpen colTypes gb ag aggs [] = .ok st) :
    groupByBatch st = .ok (none, { st with resultsReturned := true }) := by
  simp only [groupByOpen, buildGroups, List.foldlM, bind, Except.bind, pure,
    Except.pure] at h
  split at h
  · exact absurd h (by simp)
  · split at h
    · exact absurd h (by simp)
    · split at h
      · exact absurd h (by simp)
      · cases h
        rfl

/-- C10 witness: a `COUNT` over an empty `sales` table input. -/
theorem c10_groupby_empty_input_witness :
    groupByOpen [.string, .int64] [0] [1] [.count 0] [] =
      .ok ⟨[.string, .int64], [0], [1], [.count 0], [], false⟩ ∧
    groupByBatch ⟨[.string, .int64], [0], [1], [.count 0], [], false⟩ =
      .ok (none, ⟨[.string, .int64], [0], [1], [.count 0], [], true⟩) :=
  ⟨rfl, c10_groupby_empty_input [.string, .int64] [0] [1] [.count 0] _ rfl⟩

-- ===========================================================================
-- C6 — Limit/Offset row arithmetic
-- ===========================================================================

/-- Window arithmetic behind the Limit loop: taking `L - r` rows after
dropping `O - s` across the batch boundary splits into the in-batch part
and the carried-over remainder. -/
theorem limit_window_split (b rj : List Row) (dcount tcount : Nat)
    (hOs : dcount ≤ b.length) :
    ((b ++ rj).drop dcount).take tcount =
      (b.drop dcount).take tcount ++
        rj.take (tcount - ((b.drop dcount).take tcount).length) := by
  rw [List.drop_append_eq_append_drop, Nat.sub_eq_zero_of_le hOs, List.drop_zero,
    List.take_append_eq_append_take]
  congr 2
  rw [List.length_take, List.length_drop]
  omega

/-- The generalized invariant of the Limit drive loop: with `s ≤ O` rows
already skipped and any number already returned, the remaining output is
the window `[O - s, O - s + (L - r))` of the remaining input, provided no
batch is empty. -/
theorem limitRun_window (L O : Nat) :
    ∀ (bs : List (List Row)) (s r : Nat), (∀ b ∈ bs, b ≠ []) → s ≤ O →
      limitRun L O bs s r = .ok ((bs.flatten.drop (O - s)).take (L - r)) := by
  intro bs
  induction bs with
  | nil => intro s r _ _; simp [limitRun]
  | cons b rest ih =>
      intro s r hne hsO
      have hb : b ≠ [] := hne b (List.mem_cons_self b rest)
      have hbpos : 0 < b.length := List.length_pos.2 hb
      have hrest : ∀ x ∈ rest, x ≠ [] := fun x hx => hne x (List.mem_cons_of_mem b hx)
      by_cases hLr : L ≤ r
      · have h0 : L - r = 0 := Nat.sub_eq_zero_of_le hLr
        simp [limitRun, hLr, h0]
      · by_cases hskip : s < O ∧ s + b.length ≤ O
        · have hbO : b.length ≤ O - s := by omega
          have h1 := ih (s + b.length) r hrest (by omega)
          have hflat : ((b :: rest).flatten.drop (O - s)) =
              rest.flatten.drop (O - (s + b.length)) := by
            rw [List.flatten_cons, List.drop_append_eq_append_drop,
              List.drop_eq_nil_of_le hbO, List.nil_append]
            congr 1
            omega
          rw [hflat]
          simp [limitRun, hLr, hskip, h1]
        · -- the batch straddles (or lies past) the offset
          have hOs : O - s ≤ b.length := by
            rcases Nat.lt_or_ge s O with hs | hs <;> omega
          have hb1len : (b.drop (O - s)).length = b.length - (O - s) :=
            List.length_drop _ _
          have hb1ne : b.drop (O - s) ≠ [] := by
            rw [← List.length_pos, hb1len]
            rcases Nat.lt_or_ge s O with hs | hs <;> omega
          have hb2ne : (b.drop (O - s)).take (L - r) ≠ [] := by
            have h1 : 0 < (b.drop (O - s)).length := List.length_pos.2 hb1ne
            rw [← List.length_pos, List.length_take]
            omega
          have hwin := limit_window_split b rest.flatten (O - s) (L - r) hOs
          rw [List.flatten_cons]
          by_cases hsO2 : s < O
          · have hOlt : O - s < b.length := by omega
            have hbl : ¬ s + b.length ≤ O := fun hh => hskip ⟨hsO2, hh⟩
            have hskipE : skipRowsE (O - s) b = Except.ok (b.drop (O - s)) := by
              unfold skipRowsE
              rw [if_neg (by omega)]
            have h1 := ih (s + (O - s))
              (r + ((b.drop (O - s)).take (L - r)).length) hrest (by omega)
            rw [show O - (s + (O - s)) = 0 from by omega, List.drop_zero] at h1
            by_cases hgt : (b.drop (O - s)).length > L - r
            · have htake : takeRowsE (L - r) (b.drop (O - s)) =
                  Except.ok ((b.drop (O - s)).take (L - r)) := by
                unfold takeRowsE
                rw [if_neg (by omega)]
              simp only [limitRun, hLr, if_false, hskip, if_true, hsO2, hbl, hskipE,
                hgt, htake, bind, Except.bind, List.isEmpty_iff, hb2ne,
                if_false, h1, pure, Except.pure, ite_true, ite_false,
                true_and, not_false_iff]
              rw [hwin, Nat.sub_sub]
            · have hfull : (b.drop (O - s)).take (L - r) = b.drop (O - s) :=
                List.take_of_length_le (by omega)
              have h1' := h1
              rw [hfull] at h1'
              simp only [limitRun, hLr, if_false, hskip, if_true, hsO2, hbl, hskipE,
                hgt, bind, Except.bind, List.isEmpty_iff, hb1ne, if_false, h1',
                pure, Except.pure, ite_true, ite_false, true_and, not_false_iff]
              rw [hwin, hfull, Nat.sub_sub]
          · -- s = O (since s ≤ O and ¬ s < O): nothing left to skip
            have hOeq : O - s = 0 := by omega
            rw [hOeq] at hb1len hb1ne hb2ne hwin ⊢
            simp only [List.drop_zero] at hb1len hb1ne hb2ne hwin ⊢
            have h1 := ih s (r + (b.take (L - r)).length) hrest hsO
            rw [hOeq] at h1
            simp only [List.drop_zero] at h1
            by_cases hgt : b.length > L - r
            · have htake : takeRowsE (L - r) b = Except.ok (b.take (L - r)) := by
                unfold takeRowsE
                rw [if_neg (by omega)]
              simp only [limitRun, hLr, if_false, hskip, if_true, hsO2, hgt,
                htake, bind, Except.bind, List.isEmpty_iff, hb2ne, if_false,
                h1, pure, Except.pure, ite_true, ite_false, false_and]
              rw [hwin, Nat.sub_sub]
            · have hfull : b.take (L - r) = b := List.take_of_length_le (by omega)
              have h1' := h1
              rw [hfull] at h1'
              simp only [limitRun, hLr, if_false, hskip, if_true, hsO2, hgt,
                bind, Except.bind, List.isEmpty_iff, hb1ne, if_false, h1',
                pure, Except.pure, ite_true, ite_false, false_and]
              rw [hwin, hfull, Nat.sub_sub]

/-- C6 counterexample: an empty batch in the child stream ends the drive
early — with child batches `[[], [one row]]`, `LIMIT 1 OFFSET 0` returns 0
rows although `max(0, min(L, N-O)) = 1` (the source's
`if batch.is_empty() { return Ok(None) }` fires before the second batch is
ever pulled), so the claim fails for arbitrary child streams. -/
theorem c6_empty_batch_truncates :
    limitRun 1 0 [[], [[Value.int64 7]]] 0 0 = .ok [] ∧
    ([[], [[Value.int64 7]]] : List (List Row)).flatten.length = 1 ∧
    min 1 (([[], [[Value.int64 7]]] : List (List Row)).flatten.length - 0) = 1 :=
  ⟨rfl, rfl, rfl⟩

/-- C6 (amended): over a child stream of `N` rows none of whose batches is
empty, `LIMIT L OFFSET O` returns, across all its batches, exactly the
input rows at positions `[O, O+L)` in original order — in particular
`max(0, min(L, N-O))` rows (ℕ-subtraction is truncated, so `min L (N - O)`
is that value) — and once the running return count has reached `L`,
`next_batch` answers `None` with the state untouched, without pulling the
child. -/
theorem c6_limit_offset_window (L O : Nat) (batches : List (List Row))
    (hne : ∀ b ∈ batches, b ≠ []) :
    limitRun L O batches 0 0 = .ok ((batches.flatten.drop O).take L) ∧
    ((batches.flatten.drop O).take L).length = min L (batches.flatten.length - O) ∧
    (∀ st : LimitState, L ≤ st.returned → limitNext L O st = .ok (none, st)) := by
  refine ⟨?_, ?_, ?_⟩
  · simpa using limitRun_window L O batches 0 0 hne (Nat.zero_le O)
  · simp [List.length_take, List.length_drop]
  · intro st hst
    obtain ⟨bs, s, r⟩ := st
    cases bs with
    | nil => rfl
    | cons b rest => simp [limitNext, limitNextAux, hst]

/-- C6 witness: ten rows, `LIMIT 2 OFFSET 1` (the spec's example) returns
exactly the rows at original positions 1 and 2; and a saturated state
short-circuits. -/
theorem c6_limit_offset_window_witness :
    limitRun 2 1 [idRows, [[Value.int64 6]], [[Value.int64 7]], [[Value.int64 8]],
        [[Value.int64 9]], [[Value.int64 10]]] 0 0 =
      .ok [[Value.int64 2], [Value.int64 3]] ∧
    limitNext 2 1 ⟨[idRows], 0, 2⟩ = .ok (none, ⟨[idRows], 0, 2⟩) := by
  have h := c6_limit_offset_window 2 1
    [idRows, [[Value.int64 6]], [[Value.int64 7]], [[Value.int64 8]],
      [[Value.int64 9]], [[Value.int64 10]]] (by decide)
  exact ⟨h.1.trans (by rfl), h.2.2 ⟨[idRows], 0, 2⟩ (by decide)⟩

-- ===========================================================================
-- C8 — idempotent exhaustion
-- ===========================================================================

/-- After `Limit` answers `None`, it answers `None` again with the same
state — provided no batch of its remaining child stream is empty. -/
theorem limitNextAux_none_idem (L O : Nat) :
    ∀ (bs : List (List Row)) (s r : Nat) (st' : LimitState),
      (∀ b ∈ bs, b ≠ []) →
      limitNextAux L O bs s r = .ok (none, st') →
      limitNextAux L O st'.batches st'.skipped st'.returned = .ok (none, st') := by
  intro bs
  induction bs with
  | nil =>
      intro s r st' _ h
      simp only [limitNextAux] at h
      cases h
      rfl
  | cons b rest ih =>
      intro s r st' hne h
      have hb : b ≠ [] := hne b (List.mem_cons_self b rest)
      have hbpos : 0 < b.length := List.length_pos.2 hb
      have hrest : ∀ x ∈ rest, x ≠ [] := fun x hx => hne x (List.mem_cons_of_mem b hx)
      by_cases hLr : L ≤ r
      · simp only [limitNextAux, hLr, if_true] at h
        cases h
        simp [limitNextAux, hLr]
      · by_cases hskip : s < O ∧ s + b.length ≤ O
        · simp only [limitNextAux, hLr, if_false, hskip, if_true] at h
          exact ih (s + b.length) r st' hrest h
        · -- in the straddling branch the produced batch is non-empty, so the
          -- answer cannot be `None`
          exfalso
          have hOs : O - s ≤ b.length := by
            rcases Nat.lt_or_ge s O with hs | hs <;> omega
          have hb1ne : b.drop (O - s) ≠ [] := by
            rw [← List.length_pos, List.length_drop]
            rcases Nat.lt_or_ge s O with hs | hs <;> omega
          have hb2ne : (b.drop (O - s)).take (L - r) ≠ [] := by
            have h1 : 0 < (b.drop (O - s)).length := List.length_pos.2 hb1ne
            rw [← List.length_pos, List.length_take]
            omega
          by_cases hsO2 : s < O
          · have hbl : ¬ s + b.length ≤ O := fun hh => hskip ⟨hsO2, hh⟩
            have hskipE : skipRowsE (O - s) b = Except.ok (b.drop (O - s)) := by
              unfold skipRowsE
              rw [if_neg (by omega)]
            by_cases hgt : (b.drop (O - s)).length > L - r
            · have htake : takeRowsE (L - r) (b.drop (O - s)) =
                  Except.ok ((b.drop (O - s)).take (L - r)) := by
                unfold takeRowsE
                rw [if_neg (by omega)]
              simp [limitNextAux, hLr, hskip, hsO2, hbl, hskipE, hgt, htake,
                bind, Except.bind, List.isEmpty_iff, hb2ne, pure, Except.pure] at h
              rw [List.length_drop] at hgt
              simp [hgt] at h
            · have hfull : (b.drop (O - s)).take (L - r) = b.drop (O - s) :=
                List.take_of_length_le (by omega)
              simp [limitNextAux, hLr, hskip, hsO2, hbl, hskipE, hgt,
                bind, Except.bind, List.isEmpty_iff, hb1ne, pure, Except.pure] at h
              rw [List.length_drop] at hgt
              have hlt : O - s < b.length := by
                have h2 := List.length_pos.2 hb1ne
                rw [List.length_drop] at h2
                omega
              simp [hgt, Nat.not_le_of_lt hlt] at h
          · have hOeq : O - s = 0 := by omega
            rw [hOeq] at hb1ne hb2ne
            simp only [List.drop_zero] at hb1ne hb2ne
            by_cases hgt : b.length > L - r
            · have htake : takeRowsE (L - r) b = Except.ok (b.take (L - r)) := by
                unfold takeRowsE
                rw [if_neg (by omega)]
              simp [limitNextAux, hLr, hskip, hsO2, hgt, htake,
                bind, Except.bind, List.isEmpty_iff, hb2ne, pure, Except.pure] at h
            · simp [limitNextAux, hLr, hskip, hsO2, hgt,
                bind, Except.bind, List.isEmpty_iff, hb1ne, pure, Except.pure] at h

/-- C8 counterexample: `Limit` violates idempotent exhaustion over a child
that yields an empty batch — after the empty batch makes `next_batch`
answer `None`, the following call pulls the next child batch and returns
rows. -/
theorem c8_limit_not_idempotent_on_empty_batch :
    limitNext 5 0 ⟨[[], [[Value.int64 7]]], 0, 0⟩ =
      .ok (none, ⟨[[[Value.int64 7]]], 0, 0⟩) ∧
    limitNext 5 0 ⟨[[[Value.int64 7]]], 0, 0⟩ =
      .ok (some [[Value.int64 7]], ⟨[], 0, 1⟩) :=
  ⟨rfl, rfl⟩

/-- C8 (amended): in the `Open` state, once `next_batch` has returned
`None` every subsequent call returns `None` with the state unchanged — for
TableScan, Filter, Project, GroupBy and Sort over every underlying input,
and for Limit over every child stream whose batches are all non-empty
(the streams the system's operators produce; an artificial empty batch
defeats the property, see the counterexample). -/
theorem c8_idempotent_exhaustion :
    (∀ (table : List Row) (bsz cur cur' : Nat),
      scanNext table bsz cur = (none, cur') → scanNext table bsz cur' = (none, cur')) ∧
    (∀ (p : Pred) (bs rest : List (List Row)),
      filterNext p bs = .ok (none, rest) → filterNext p rest = .ok (none, rest)) ∧
    (∀ (idxs : List Nat) (bs rest : List (List Row)),
      projNext idxs bs = .ok (none, rest) → projNext idxs rest = .ok (none, rest)) ∧
    (∀ (st st' : GroupByState),
      groupByBatch st = .ok (none, st') → groupByBatch st' = .ok (none, st')) ∧
    (∀ (bsz : Nat) (sorted : List Row) (cur cur' : Nat),
      sortNext bsz sorted cur = (none, cur') → sortNext bsz sorted cur' = (none, cur')) ∧
    (∀ (L O : Nat) (st st' : LimitState), (∀ b ∈ st.batches, b ≠ []) →
      limitNext L O st = .ok (none, st') → limitNext L O st' = .ok (none, st')) := by
  refine ⟨?_, ?_, ?_, ?_, ?_, ?_⟩
  · intro table bsz cur cur' h
    by_cases hend : table.length ≤ cur
    · simp only [scanNext, hend, if_true] at h
      cases h
      simp [scanNext, hend]
    · simp [scanNext, hend] at h
  · intro p bs
    induction bs with
    | nil =>
        intro rest h
        simp only [filterNext] at h
        cases h
        rfl
    | cons b bs ih =>
        intro rest h
        by_cases hlen : b.length = 0
        · simp [filterNext, hlen] at h
        · simp only [filterNext, hlen, if_false] at h
          cases hm : filterRows p b with
          | error e => rw [hm] at h; simp [bind, Except.bind] at h
          | ok matched =>
              rw [hm] at h
              simp only [bind, Except.bind] at h
              by_cases hemp : matched.isEmpty
              · rw [if_pos hemp] at h
                exact ih rest h
              · rw [if_neg hemp] at h
                cases h
  · intro idxs bs rest h
    cases bs with
    | nil =>
        simp only [projNext] at h
        cases h
        rfl
    | cons b bs =>
        simp only [projNext] at h
        split at h
        · exact absurd h (by simp)
        · split at h
          · exact absurd h (by simp)
          · exact absurd h (by simp)
  · intro st st' h
    by_cases hret : st.resultsReturned
    · simp only [groupByBatch, hret, if_true] at h
      cases h
      simp [groupByBatch, hret]
    · simp only [groupByBatch, hret, if_false] at h
      by_cases hgrp : st.groups.isEmpty
      · rw [if_pos hgrp] at h
        cases h
        simp [groupByBatch]
      · rw [if_neg hgrp] at h
        have hgen : ∀ (x : Except EErr (List Row)) (st1 : GroupByState),
            (x.bind fun out => (pure (some out, st1) : Except EErr _)) ≠
              Except.ok (none, st') := by
          intro x st1
          cases x <;> simp [Except.bind, pure, Except.pure]
        exact absurd h (hgen _ _)
  · intro bsz sorted cur cur' h
    by_cases hend : sorted.length ≤ cur
    · simp only [sortNext, hend, if_true] at h
      cases h
      simp [sortNext, hend]
    · simp [sortNext, hend] at h
  · intro L O st st' hne h
    exact limitNextAux_none_idem L O st.batches st.skipped st.returned st' hne h

/-- C8 witness: each operator applied at a concrete exhausted state. -/
theorem c8_idempotent_exhaustion_witness :
    scanNext idRows 1024 5 = (none, 5) ∧
    filterNext (Pred.cmp 0 .gt (.int64 0)) [] = .ok (none, []) ∧
    projNext [0] [] = .ok (none, []) ∧
    groupByBatch ⟨[.int64], [0], [], [], [], true⟩ =
      .ok (none, ⟨[.int64], [0], [], [], [], true⟩) ∧
    sortNext 1024 [] 0 = (none, 0) ∧
    limitNext 1 0 ⟨[], 0, 1⟩ = .ok (none, ⟨[], 0, 1⟩) :=
  ⟨c8_idempotent_exhaustion.1 idRows 1024 5 5 rfl,
   c8_idempotent_exhaustion.2.1 (Pred.cmp 0 .gt (.int64 0)) [] [] rfl,
   c8_idempotent_exhaustion.2.2.1 [0] [] [] rfl,
   c8_idempotent_exhaustion.2.2.2.1 ⟨[.int64], [0], [], [], [], true⟩ ⟨[.int64], [0], [], [], [], true⟩ rfl,
   c8_idempotent_exhaustion.2.2.2.2.1 1024 [] 0 0 rfl,
   c8_idempotent_exhaustion.2.2.2.2.2 1 0 ⟨[], 0, 1⟩ ⟨[], 0, 1⟩ (by simp) rfl⟩

-- ===========================================================================
-- C7 — Sort: permutation, adjacent sortedness, stability, NaN handling
-- ===========================================================================

theorem le_fst_of_mem_enumFrom {α : Type _} :
    ∀ (n : Nat) (l : List α) (p : Nat × α), p ∈ l.enumFrom n → n ≤ p.1 := by
  intro n l
  induction l generalizing n with
  | nil => intro p hp; simp [List.enumFrom] at hp
  | cons x xs ih =>
      intro p hp
      simp only [List.enumFrom, List.mem_cons] at hp
      rcases hp with hp | hp
      · subst hp; exact le_refl n
      · exact Nat.le_of_succ_le (ih (n + 1) p hp)

theorem pairwise_fst_lt_enumFrom {α : Type _} :
    ∀ (n : Nat) (l : List α), (l.enumFrom n).Pairwise (fun p q => p.1 < q.1) := by
  intro n l
  induction l generalizing n with
  | nil => simp [List.enumFrom]
  | cons x xs ih =>
      simp only [List.enumFrom]
      exact List.Pairwise.cons
        (fun q hq => Nat.lt_of_succ_le (le_fst_of_mem_enumFrom (n + 1) xs q hq)) (ih (n + 1))

/-- C7: for every sort specification and child input, the sorted sequence
`Sort::open` materializes (and `next_batch` then serves out in chunks,
final conjunct) is (1) a permutation of the input rows, (2) non-decreasing
under the declared per-column cascading comparator — direction reversal
and tie cascading included — for every adjacent pair, (3) = (4) stable:
on index-tagged rows the sort commutes with untagging, and rows comparing
equal keep strictly increasing original indices, and (5) Float64
comparisons involving NaN yield `Equal` rather than failing. -/
theorem c7_sort_order_properties (sortCols : List (Nat × SortDir)) (rows : List Row) :
    (sortOpen sortCols rows).Perm rows ∧
    (sortOpen sortCols rows).Chain' (fun a b => rowCmp sortCols a b ≠ .gt) ∧
    ((stableSort (fun a b => rowCmp sortCols a.2 b.2) rows.enum).map Prod.snd =
        sortOpen sortCols rows) ∧
    ((stableSort (fun a b => rowCmp sortCols a.2 b.2) rows.enum).Pairwise
        (fun a b => rowCmp sortCols a.2 b.2 = .eq → a.1 < b.1)) ∧
    (∀ f : F64, valueCmp (.float64 .nan) (.float64 f) = .eq ∧
        valueCmp (.float64 f) (.float64 .nan) = .eq) ∧
    (∀ bsz, 1 ≤ bsz → sortDrive bsz (sortOpen sortCols rows) 0 = sortOpen sortCols rows) := by
  refine ⟨stableSort_perm _ rows,
    stableSort_chain' _ (rowCmp_swap sortCols) rows, ?_, ?_, ?_, ?_⟩
  · rw [stableSortIdx_map_snd, List.enum_map_snd]
    rfl
  · exact pairwise_stableSortIdx _ (rowCmp_swap sortCols) rows.enum
      (pairwise_fst_lt_enumFrom 0 rows)
  · intro f
    exact ⟨by cases f <;> rfl, by cases f <;> rfl⟩
  · intro bsz hb
    rw [sortDrive_eq_drop bsz hb _ 0, List.drop_zero]

/-- C7 witness: the spec's example — `(Alice,25),(Bob,30),(Alice,35)`
sorted ascending by name then age gives `(Alice,25),(Alice,35),(Bob,30)`
(both Alice rows before Bob, 25 before 35, i.e., stable), and a positive
batch size serves the whole sequence. -/
theorem c7_sort_order_properties_witness :
    (sortOpen [(0, .ascending), (1, .ascending)]
        [[.str "Alice", .int64 25], [.str "Bob", .int64 30], [.str "Alice", .int64 35]]).Perm
      [[.str "Alice", .int64 25], [.str "Bob", .int64 30], [.str "Alice", .int64 35]] ∧
    sortDrive 1024 (sortOpen [(0, .ascending), (1, .ascending)]
        [[.str "Alice", .int64 25], [.str "Bob", .int64 30], [.str "Alice", .int64 35]]) 0 =
      sortOpen [(0, .ascending), (1, .ascending)]
        [[.str "Alice", .int64 25], [.str "Bob", .int64 30], [.str "Alice", .int64 35]] ∧
    sortOpen [(0, .ascending), (1, .ascending)]
        [[.str "Alice", .int64 25], [.str "Bob", .int64 30], [.str "Alice", .int64 35]] =
      [[.str "Alice", .int64 25], [.str "Alice", .int64 35], [.str "Bob", .int64 30]] :=
  ⟨(c7_sort_order_properties [(0, .ascending), (1, .ascending)]
      [[.str "Alice", .int64 25], [.str "Bob", .int64 30], [.str "Alice", .int64 35]]).1,
   (c7_sort_order_properties [(0, .ascending), (1, .ascending)]
      [[.str "Alice", .int64 25], [.str "Bob", .int64 30], [.str "Alice", .int64 35]]).2.2.2.2.2
     1024 (by decide),
   by decide⟩


-- ===========================================================================
-- C1 — plan shape: grouped queries and the Sort/Limit stages
-- ===========================================================================

theorem scanPlan_shape (t : TableMeta) (ci : List Nat) :
    (scanPlan t ci).hasSort = false ∧ (scanPlan t ci).hasLimit = false := by
  unfold scanPlan
  split <;> exact ⟨rfl, rfl⟩

theorem filterStep_shape (t : TableMeta) (stmt : SelectStmt) (ci : List Nat)
    (sc p : Plan) (h : filterStep t stmt ci sc = .ok p) :
    p.hasSort = sc.hasSort ∧ p.hasLimit = sc.hasLimit := by
  unfold filterStep at h
  cases hw : stmt.whereClause with
  | none =>
      rw [hw] at h
      cases h
      exact ⟨rfl, rfl⟩
  | some w =>
      rw [hw] at h
      dsimp only at h
      cases hb : buildPredicate t ci w with
      | error e => rw [hb] at h; simp [bind, Except.bind] at h
      | ok pr =>
          rw [hb] at h
          simp only [bind, Except.bind, pure, Except.pure, Except.ok.injEq] at h
          subst h
          exact ⟨rfl, rfl⟩

theorem groupStep_shape (t : TableMeta) (stmt : SelectStmt) (info : ProjInfo)
    (ci : List Nat) (plan p : Plan) (h : groupStep t stmt info ci plan = .ok p) :
    p.hasSort = plan.hasSort ∧ p.hasLimit = plan.hasLimit := by
  unfold groupStep at h
  dsimp only at h
  cases hf : (info.aggregateColumns.zip info.aggregateFunctions).foldlM
      (groupAggFold t ci) ([], []) with
  | error e => rw [hf] at h; simp [bind, Except.bind] at h
  | ok ag =>
      rw [hf] at h
      simp only [bind, Except.bind, pure, Except.pure, Except.ok.injEq] at h
      subst h
      split <;> exact ⟨rfl, rfl⟩

theorem grouped_planSelect_no_sort_limit (t : TableMeta) (stmt : SelectStmt)
    (p : Plan) (hg : (stmt.groupBy.elim false fun g => !g.isEmpty) = true)
    (h : planSelect t stmt = .ok p) :
    p.hasSort = false ∧ p.hasLimit = false := by
  unfold planSelect at h
  cases ha : analyzeProjection t stmt with
  | error e => rw [ha] at h; simp [bind, Except.bind] at h
  | ok info =>
      rw [ha] at h
      simp only [bind, Except.bind] at h
      cases hw : stmt.whereClause with
      | none =>
          rw [hw] at h
          dsimp only at h
          simp only [bind, Except.bind, hg, Bool.true_or, if_true] at h
          cases hfs : filterStep t stmt (requiredIdx t stmt info [])
              (scanPlan t (requiredIdx t stmt info [])) with
          | error e => rw [hfs] at h; simp [bind, Except.bind] at h
          | ok plan =>
              rw [hfs] at h
              simp only [bind, Except.bind] at h
              have hgs := groupStep_shape t stmt info (requiredIdx t stmt info []) plan p h
              have hfsS := filterStep_shape t stmt (requiredIdx t stmt info []) _ plan hfs
              have hsc := scanPlan_shape t (requiredIdx t stmt info [])
              exact ⟨by rw [hgs.1, hfsS.1, hsc.1], by rw [hgs.2, hfsS.2, hsc.2]⟩
      | some w =>
          rw [hw] at h
          dsimp only at h
          cases hc : collectExpr t w with
          | error e => rw [hc] at h; simp [bind, Except.bind] at h
          | ok wcols =>
              rw [hc] at h
              simp only [bind, Except.bind, hg, Bool.true_or, if_true] at h
              cases hfs : filterStep t stmt (requiredIdx t stmt info wcols)
                  (scanPlan t (requiredIdx t stmt info wcols)) with
              | error e => rw [hfs] at h; simp [bind, Except.bind] at h
              | ok plan =>
                  rw [hfs] at h
                  simp only [bind, Except.bind] at h
                  have hgs := groupStep_shape t stmt info
                    (requiredIdx t stmt info wcols) plan p h
                  have hfsS := filterStep_shape t stmt
                    (requiredIdx t stmt info wcols) _ plan hfs
                  have hsc := scanPlan_shape t (requiredIdx t stmt info wcols)
                  exact ⟨by rw [hgs.1, hfsS.1, hsc.1], by rw [hgs.2, hfsS.2, hsc.2]⟩

/-- C1: the spec says Sort and Limit are appended to every planned
query that asks for them, whether or not grouping occurred.  The code
diverges: the GROUP BY branch of `plan_select` returns immediately
after GroupBy (and its renaming Project), so a grouped plan never
contains a Sort or Limit node — shown in general, and on the concrete
failing input `SELECT product, SUM(amount) FROM sales GROUP BY product
ORDER BY product LIMIT 1`, whose plan ignores both its ORDER BY and its
LIMIT clause. -/
theorem c1_grouped_plans_drop_sort_and_limit :
    (∀ (t : TableMeta) (stmt : SelectStmt) (p : Plan),
      (stmt.groupBy.elim false fun g => !g.isEmpty) = true →
      planSelect t stmt = .ok p →
      p.hasSort = false ∧ p.hasLimit = false) ∧
    stmtGroupSortLimit.orderBy.isSome = true ∧
    stmtGroupSortLimit.limit.isSome = true ∧
    planSelect salesT stmtGroupSortLimit =
      .ok (.project (.groupByOp (.tableScan [0, 1]) [0] [1] [.sumInt 0]) [0, 1]
        (some ["product", "SUM_amount"])) :=
  ⟨grouped_planSelect_no_sort_limit, rfl, rfl, rfl⟩

/-- C1 witness: the general part applied to the concrete grouped query,
with both hypotheses discharged at it. -/
theorem c1_grouped_plans_drop_sort_and_limit_witness :
    ((stmtGroupSortLimit.groupBy.elim false fun g => !g.isEmpty) = true) ∧
    (Plan.project (.groupByOp (.tableScan [0, 1]) [0] [1] [.sumInt 0]) [0, 1]
        (some ["product", "SUM_amount"])).hasSort = false ∧
    (Plan.project (.groupByOp (.tableScan [0, 1]) [0] [1] [.sumInt 0]) [0, 1]
        (some ["product", "SUM_amount"])).hasLimit = false :=
  ⟨by decide,
   (c1_grouped_plans_drop_sort_and_limit.1 salesT stmtGroupSortLimit _
     (by decide) rfl).1,
   (c1_grouped_plans_drop_sort_and_limit.1 salesT stmtGroupSortLimit _
     (by decide) rfl).2⟩

-- ===========================================================================
-- C4 — unknown column names across the clauses
-- ===========================================================================

theorem foldlM_err_of_mem {α β : Type} (f : β → α → Except PErr β) (x : α)
    (hf : ∀ b, isOkE (f b x) = false) :
    ∀ (l : List α) (b : β), x ∈ l → isOkE (l.foldlM f b) = false := by
  intro l
  induction l with
  | nil => intro b hx; cases hx
  | cons y ys ih =>
      intro b hx
      rw [List.foldlM_cons]
      cases hfy : f b y with
      | error e => simp [bind, Except.bind, hfy, isOkE]
      | ok b' =>
          simp only [hfy, bind, Except.bind]
          rcases List.mem_cons.mp hx with rfl | hx'
          · have := hf b; rw [hfy] at this; simp [isOkE] at this
          · exact ih b' hx'

theorem mapM_err_of_mem {α β : Type} (f : α → Except PErr β) (x : α)
    (hf : isOkE (f x) = false) :
    ∀ l : List α, x ∈ l → isOkE (l.mapM f) = false := by
  intro l
  induction l with
  | nil => intro hx; cases hx
  | cons y ys ih =>
      intro hx
      rw [List.mapM_cons]
      cases hfy : f y with
      | error e => simp [bind, Except.bind, hfy, isOkE]
      | ok b =>
          simp only [hfy, bind, Except.bind]
          rcases List.mem_cons.mp hx with rfl | hx'
          · rw [hfy] at hf; simp [isOkE] at hf
          · cases hm : ys.mapM f with
            | error e => simp [bind, Except.bind, hm, isOkE, pure, Except.pure]
            | ok bs => rw [hm] at ih; simp [isOkE] at ih; exact absurd (ih hx') (by simp)

theorem getLiteralValue_err_of_unknown (t : TableMeta) (r : Expr)
    (hr : exprHasUnknown t r = true) : isOkE (getLiteralValue r) = false := by
  cases r with
  | column name => rfl
  | stringLit s => simp [exprHasUnknown] at hr
  | numberLit s => simp [exprHasUnknown] at hr
  | aggregateFn fn a => rfl
  | binaryOp l op r => rfl
  | unaryOp op a => rfl

theorem unknown_where_errors (t : TableMeta) :
    ∀ e : Expr, exprHasUnknown t e = true →
      isOkE (collectExpr t e) = false ∨
        ∀ ci : List Nat, isOkE (buildPredicate t ci e) = false := by
  intro e
  induction e with
  | column name =>
      intro he
      left
      simp only [exprHasUnknown, Option.isNone_iff_eq_none] at he
      simp [collectExpr, he, isOkE]
  | stringLit s => intro he; simp [exprHasUnknown] at he
  | numberLit s => intro he; simp [exprHasUnknown] at he
  | aggregateFn fn a ih => intro he; right; intro ci; rfl
  | unaryOp op a ih => intro he; right; intro ci; cases op <;> rfl
  | binaryOp l op r ihl ihr =>
      intro he
      simp only [exprHasUnknown, Bool.or_eq_true] at he
      cases op
      case andOp =>
          rcases he with hl | hr
          · rcases ihl hl with hc | hb
            · left
              cases hcl : collectExpr t l with
              | error e => simp [collectExpr, hcl, bind, Except.bind, isOkE]
              | ok ls => rw [hcl] at hc; simp [isOkE] at hc
            · right
              intro ci
              cases hbl : buildPredicate t ci l with
              | error e => simp [buildPredicate, hbl, bind, Except.bind, isOkE]
              | ok lp => have := hb ci; rw [hbl] at this; simp [isOkE] at this
          · rcases ihr hr with hc | hb
            · left
              cases hcl : collectExpr t l with
              | error e => simp [collectExpr, hcl, bind, Except.bind, isOkE]
              | ok ls =>
                  cases hcr : collectExpr t r with
                  | error e => simp [collectExpr, hcl, hcr, bind, Except.bind, isOkE]
                  | ok rs => rw [hcr] at hc; simp [isOkE] at hc
            · right
              intro ci
              cases hbl : buildPredicate t ci l with
              | error e => simp [buildPredicate, hbl, bind, Except.bind, isOkE]
              | ok lp =>
                  cases hbr : buildPredicate t ci r with
                  | error e => simp [buildPredicate, hbl, hbr, bind, Except.bind, isOkE]
                  | ok rp => have := hb ci; rw [hbr] at this; simp [isOkE] at this
      case orOp =>
          rcases he with hl | hr
          · rcases ihl hl with hc | hb
            · left
              cases hcl : collectExpr t l with
              | error e => simp [collectExpr, hcl, bind, Except.bind, isOkE]
              | ok ls => rw [hcl] at hc; simp [isOkE] at hc
            · right
              intro ci
              cases hbl : buildPredicate t ci l with
              | error e => simp [buildPredicate, hbl, bind, Except.bind, isOkE]
              | ok lp => have := hb ci; rw [hbl] at this; simp [isOkE] at this
          · rcases ihr hr with hc | hb
            · left
              cases hcl : collectExpr t l with
              | error e => simp [collectExpr, hcl, bind, Except.bind, isOkE]
              | ok ls =>
                  cases hcr : collectExpr t r with
                  | error e => simp [collectExpr, hcl, hcr, bind, Except.bind, isOkE]
                  | ok rs => rw [hcr] at hc; simp [isOkE] at hc
            · right
              intro ci
              cases hbl : buildPredicate t ci l with
              | error e => simp [buildPredicate, hbl, bind, Except.bind, isOkE]
              | ok lp =>
                  cases hbr : buildPredicate t ci r with
                  | error e => simp [buildPredicate, hbl, hbr, bind, Except.bind, isOkE]
                  | ok rp => have := hb ci; rw [hbr] at this; simp [isOkE] at this
      all_goals
        cases l with
        | column name =>
            cases hln : t.lookupIdx name with
            | none => left; simp [collectExpr, hln, isOkE]
            | some idx =>
                right
                intro ci
                have hr : exprHasUnknown t r = true := by
                  rcases he with hl | hr
                  · simp [exprHasUnknown, hln] at hl
                  · exact hr
                have hlit := getLiteralValue_err_of_unknown t r hr
                cases hf : ci.findIdx? (· = idx) with
                | none => simp [buildPredicate, getColumnIndex, hln, hf, bind, Except.bind, isOkE]
                | some p =>
                    cases hg : getLiteralValue r with
                    | error e =>
                        simp [buildPredicate, getColumnIndex, hln, hf, hg,
                          bind, Except.bind, pure, Except.pure, isOkE]
                    | ok v => rw [hg] at hlit; simp [isOkE] at hlit
        | stringLit s => right; intro ci; rfl
        | numberLit s => right; intro ci; rfl
        | aggregateFn fn a => right; intro ci; rfl
        | binaryOp l2 op2 r2 => right; intro ci; rfl
        | unaryOp op2 a => right; intro ci; rfl

theorem analyzeItem_hasAgg (t : TableMeta) (acc acc' : AnalyzeAcc) (si : SelItem)
    (hsel : selHasAgg si = false) (h : analyzeItem t acc si = .ok acc') :
    acc'.hasAgg = acc.hasAgg := by
  cases si with
  | wildcard => cases h; rfl
  | expression e =>
      cases e with
      | aggregateFn fn a => simp [selHasAgg] at hsel
      | column name =>
          simp only [analyzeItem] at h
          split at h
          · cases h; rfl
          · cases h
      | stringLit s => cases h
      | numberLit s => cases h
      | unaryOp op a =>
          simp only [analyzeItem] at h
          split at h
          · split at h
            · cases h; rfl
            · cases h
          · cases h; rfl
      | binaryOp l op r =>
          simp only [analyzeItem, bind, Except.bind] at h
          repeat' split at h
          all_goals (cases h <;> rfl)

theorem foldlM_hasAgg (t : TableMeta) :
    ∀ (items : List SelItem) (acc acc' : AnalyzeAcc),
      (∀ si ∈ items, selHasAgg si = false) →
      items.foldlM (analyzeItem t) acc = .ok acc' →
      acc'.hasAgg = acc.hasAgg := by
  intro items
  induction items with
  | nil => intro acc acc' _ h; cases h; rfl
  | cons y ys ih =>
      intro acc acc' hall h
      rw [List.foldlM_cons] at h
      cases hy : analyzeItem t acc y with
      | error e => rw [hy] at h; simp [bind, Except.bind] at h
      | ok acc1 =>
          rw [hy] at h
          simp only [bind, Except.bind] at h
          have h1 := analyzeItem_hasAgg t acc acc1 y (hall y (List.mem_cons_self y ys)) hy
          have h2 := ih acc1 acc' (fun si hsi => hall si (List.mem_cons_of_mem y hsi)) h
          rw [h2, h1]

theorem analyzeProjection_hasAgg (t : TableMeta) (stmt : SelectStmt) (info : ProjInfo)
    (hall : ∀ si ∈ stmt.selectItems, selHasAgg si = false)
    (h : analyzeProjection t stmt = .ok info) : info.hasAggregates = false := by
  unfold analyzeProjection at h
  cases hf : stmt.selectItems.foldlM (analyzeItem t) ⟨[], [], false, [], []⟩ with
  | error e => rw [hf] at h; simp [bind, Except.bind] at h
  | ok acc =>
      rw [hf] at h
      simp only [bind, Except.bind, pure, Except.pure, Except.ok.injEq] at h
      have := foldlM_hasAgg t stmt.selectItems _ acc hall hf
      rw [← h]
      exact this

theorem planSelect_err_select (t : TableMeta) (stmt : SelectStmt) (name : String)
    (hmem : SelItem.expression (.column name) ∈ stmt.selectItems)
    (hun : t.lookupIdx name = none) :
    isOkE (planSelect t stmt) = false := by
  have hitem : ∀ acc, isOkE (analyzeItem t acc (.expression (.column name))) = false := by
    intro acc; simp [analyzeItem, hun, isOkE]
  have hfold := foldlM_err_of_mem (analyzeItem t) _ hitem stmt.selectItems
    ⟨[], [], false, [], []⟩ hmem
  unfold planSelect analyzeProjection
  cases hf : stmt.selectItems.foldlM (analyzeItem t) ⟨[], [], false, [], []⟩ with
  | error e => simp [hf, bind, Except.bind, isOkE]
  | ok acc => rw [hf] at hfold; simp [isOkE] at hfold

theorem planSelect_err_where (t : TableMeta) (stmt : SelectStmt) (w : Expr)
    (hw : stmt.whereClause = some w) (hun : exprHasUnknown t w = true) :
    isOkE (planSelect t stmt) = false := by
  unfold planSelect
  cases ha : analyzeProjection t stmt with
  | error e => simp [ha, bind, Except.bind, isOkE]
  | ok info =>
      rcases unknown_where_errors t w hun with hc | hb
      · cases hcw : collectExpr t w with
        | error e => simp [ha, hw, hcw, bind, Except.bind, isOkE]
        | ok wcols => rw [hcw] at hc; simp [isOkE] at hc
      · cases hcw : collectExpr t w with
        | error e => simp [ha, hw, hcw, bind, Except.bind, isOkE]
        | ok wcols =>
            have hbp := hb (requiredIdx t stmt info wcols)
            cases hbpe : buildPredicate t (requiredIdx t stmt info wcols) w with
            | ok p => rw [hbpe] at hbp; simp [isOkE] at hbp
            | error e =>
                simp [ha, hw, hcw, hbpe, filterStep, bind, Except.bind, isOkE]

theorem planSelect_err_order (t : TableMeta) (stmt : SelectStmt)
    (items : List OrderItem) (item : OrderItem)
    (ho : stmt.orderBy = some items) (hmem : item ∈ items)
    (hun : t.lookupIdx item.column = none)
    (hg : (stmt.groupBy.elim false fun g => !g.isEmpty) = false)
    (hnoagg : ∀ si ∈ stmt.selectItems, selHasAgg si = false) :
    isOkE (planSelect t stmt) = false := by
  unfold planSelect
  cases ha : analyzeProjection t stmt with
  | error e => simp [ha, bind, Except.bind, isOkE]
  | ok info =>
      have hAgg := analyzeProjection_hasAgg t stmt info hnoagg ha
      have hcont : ∀ (ci : List Nat) (plan : Plan),
          isOkE (Except.bind (projectStep t info ci plan) fun p2 =>
            Except.bind (sortStep t stmt info ci p2) fun p3 =>
              pure (limitStep stmt p3)) = false := by
        intro ci plan
        cases hp : projectStep t info ci plan with
        | error e => simp [hp, bind, Except.bind, isOkE]
        | ok plan2 =>
            have hitem : isOkE (sortColOf t stmt info ci item) = false := by
              simp [sortColOf, hg, hAgg, hun, bind, Except.bind, isOkE]
            have hms := mapM_err_of_mem (sortColOf t stmt info ci) item hitem items hmem
            cases hbs : buildSortCols t stmt info ci items with
            | ok sc =>
                rw [buildSortCols] at hbs; rw [hbs] at hms; simp [isOkE] at hms
            | error e =>
                simp [hp, sortStep, ho, hbs, bind, Except.bind, isOkE]
      cases hwc : stmt.whereClause with
      | none =>
          cases hfs : filterStep t stmt (requiredIdx t stmt info [])
              (scanPlan t (requiredIdx t stmt info [])) with
          | error e => simp [ha, hwc, hfs, bind, Except.bind, isOkE]
          | ok plan =>
              have := hcont (requiredIdx t stmt info []) plan
              simpa [ha, hwc, hfs, hg, hAgg, bind, Except.bind, isOkE] using this
      | some w =>
          cases hcw : collectExpr t w with
          | error e => simp [ha, hwc, hcw, bind, Except.bind, isOkE]
          | ok wcols =>
              cases hfs : filterStep t stmt (requiredIdx t stmt info wcols)
                  (scanPlan t (requiredIdx t stmt info wcols)) with
              | error e => simp [ha, hwc, hcw, hfs, bind, Except.bind, isOkE]
              | ok plan =>
                  have := hcont (requiredIdx t stmt info wcols) plan
                  simpa [ha, hwc, hcw, hfs, hg, hAgg, bind, Except.bind, isOkE] using this

/-- C4 counterexample: a GROUP BY list naming a non-existent column is
not rejected — `SELECT product FROM sales GROUP BY bogus` plans
successfully, with the unknown name silently dropped from the grouping
key set. -/
theorem c4_unknown_groupby_silently_skipped :
    salesT.lookupIdx "bogus" = none ∧
    planSelect salesT stmtGroupByUnknown =
      .ok (.project (.groupByOp (.tableScan [0]) [] [] []) [] (some ["product"])) :=
  ⟨rfl, rfl⟩

/-- C4: the spec says every clause that names a non-existent column
makes planning fail before any operator is opened, with no silent
skipping in any clause.  Corrected: this holds for the SELECT list, the
WHERE clause, and — on ungrouped, aggregate-free queries — the ORDER BY
list, but unresolvable GROUP BY names are silently skipped (see the
counterexample theorem). -/
theorem c4_unknown_columns_rejected_except_groupby (t : TableMeta) (stmt : SelectStmt) :
    (∀ name : String, SelItem.expression (.column name) ∈ stmt.selectItems →
      t.lookupIdx name = none → isOkE (planSelect t stmt) = false) ∧
    (∀ w : Expr, stmt.whereClause = some w → exprHasUnknown t w = true →
      isOkE (planSelect t stmt) = false) ∧
    (∀ (items : List OrderItem) (item : OrderItem), stmt.orderBy = some items →
      item ∈ items → t.lookupIdx item.column = none →
      (stmt.groupBy.elim false fun g => !g.isEmpty) = false →
      (∀ si ∈ stmt.selectItems, selHasAgg si = false) →
      isOkE (planSelect t stmt) = false) :=
  ⟨fun name hmem hun => planSelect_err_select t stmt name hmem hun,
   fun w hw hun => planSelect_err_where t stmt w hw hun,
   fun items item ho hmem hun hg hnoagg =>
     planSelect_err_order t stmt items item ho hmem hun hg hnoagg⟩

/-- C4 witness: planning fails on `SELECT bogus FROM sales`, on
`SELECT product FROM sales WHERE bogus = 1`, and on
`SELECT product FROM sales ORDER BY bogus`. -/
theorem c4_unknown_columns_rejected_except_groupby_witness :
    isOkE (planSelect salesT stmtSelectUnknown) = false ∧
    isOkE (planSelect salesT stmtWhereUnknown) = false ∧
    isOkE (planSelect salesT stmtOrderUnknown) = false :=
  ⟨(c4_unknown_columns_rejected_except_groupby salesT stmtSelectUnknown).1 "bogus"
     (by decide) rfl,
   (c4_unknown_columns_rejected_except_groupby salesT stmtWhereUnknown).2.1
     (.binaryOp (.column "bogus") .eqOp (.numberLit "1")) rfl (by decide),
   (c4_unknown_columns_rejected_except_groupby salesT stmtOrderUnknown).2.2
     [⟨"bogus", .ascending⟩] ⟨"bogus", .ascending⟩ rfl (by decide) rfl rfl (by decide)⟩

-- ===========================================================================
-- C5 — GroupBy: one row per distinct key, naive aggregate recomputation
-- ===========================================================================

theorem rowGet_none (r : Row) (c : Nat) (h : r.get? c = none) :
    rowGet r c = .error (.invalidColumnIndex c r.length) := by
  unfold rowGet; rw [h]

theorem rowGet_some (r : Row) (c : Nat) (v : Value) (h : r.get? c = some v) :
    rowGet r c = .ok v := by
  unfold rowGet; rw [h]

theorem keyOfE_ok_repr (gb : List Nat) (r : Row) :
    ∀ k, keyOfE gb r = .ok k → keyReprL k = specKey gb r := by
  induction gb with
  | nil => intro k h; cases h; rfl
  | cons c cs ih =>
      intro k h
      rw [keyOfE, List.mapM_cons] at h
      cases hv : r.get? c with
      | none =>
          rw [rowGet_none r c hv] at h
          simp [Except.map, bind, Except.bind] at h
      | some v =>
          rw [rowGet_some r c v hv] at h
          cases hrest : keyOfE cs r with
          | error e =>
              rw [keyOfE] at hrest
              rw [hrest] at h
              simp [Except.map, bind, Except.bind] at h
          | ok ks =>
              have hrest' := hrest
              rw [keyOfE] at hrest
              rw [hrest] at h
              simp only [Except.map, bind, Except.bind, pure, Except.pure,
                Except.ok.injEq] at h
              subst h
              have := ih ks hrest'
              have hv' : r[c]? = some v := by rw [← List.get?_eq_getElem?]; exact hv
              simp [keyReprL, specKey, hv'] at this ⊢
              exact this

theorem insertGroup_groupRows (gs : List (GKey × List Row)) (k : GKey) (r : Row)
    (kr : List (Option String)) :
    groupRows (insertGroup gs k r) kr =
      if keyReprL k == kr then groupRows gs kr ++ [r] else groupRows gs kr := by
  induction gs with
  | nil =>
      by_cases hk : keyReprL k = kr
      · simp [insertGroup, groupRows, hk]
      · simp [insertGroup, groupRows, hk]
  | cons g0 rest ih =>
      by_cases h0 : keyEq g0.1 k = true
      · have h0' : keyReprL g0.1 = keyReprL k := by simpa [keyEq] using h0
        by_cases hk : keyReprL k = kr
        · have hb : (keyReprL g0.1 == kr) = true := beq_iff_eq.mpr (h0'.trans hk)
          have hkb : (keyReprL k == kr) = true := beq_iff_eq.mpr hk
          simp [insertGroup, h0, groupRows, List.find?_cons, hb, hkb]
        · have hb : (keyReprL g0.1 == kr) = false :=
            beq_eq_false_iff_ne.mpr fun hh => hk (h0' ▸ hh)
          have hkb : (keyReprL k == kr) = false := beq_eq_false_iff_ne.mpr hk
          simp [insertGroup, h0, groupRows, List.find?_cons, hb, hkb]
      · have h0' : keyReprL g0.1 ≠ keyReprL k := by simpa [keyEq] using h0
        by_cases hg : keyReprL g0.1 = kr
        · have hb : (keyReprL g0.1 == kr) = true := beq_iff_eq.mpr hg
          have hkb : (keyReprL k == kr) = false :=
            beq_eq_false_iff_ne.mpr fun hh => h0' (hg.trans hh.symm)
          simp [insertGroup, h0, groupRows, List.find?_cons, hb, hkb]
        · have hb : (keyReprL g0.1 == kr) = false := beq_eq_false_iff_ne.mpr hg
          simp only [insertGroup, h0, if_false]
          simpa [groupRows, List.find?_cons, hb] using ih

theorem buildGroups_rows (gb : List Nat) :
    ∀ (rows : List Row) (gs0 gs : List (GKey × List Row)),
      rows.foldlM (fun gs r => do
        let k ← keyOfE gb r
        pure (insertGroup gs k r)) gs0 = .ok gs →
      ∀ kr, groupRows gs kr =
        groupRows gs0 kr ++ (rows.filter fun r => specKey gb r == kr) := by
  intro rows
  induction rows with
  | nil => intro gs0 gs h kr; cases h; simp
  | cons r rest ih =>
      intro gs0 gs h kr
      rw [List.foldlM_cons] at h
      cases hk : keyOfE gb r with
      | error e => rw [hk] at h; simp [bind, Except.bind] at h
      | ok k =>
          rw [hk] at h
          simp only [bind, Except.bind, pure, Except.pure] at h
          have hrepr := keyOfE_ok_repr gb r k hk
          have hrec := ih (insertGroup gs0 k r) gs h kr
          rw [hrec, insertGroup_groupRows, hrepr]
          by_cases hkr : specKey gb r = kr
          · have hb : (specKey gb r == kr) = true := beq_iff_eq.mpr hkr
            simp [List.filter_cons, hb]
          · have hb : (specKey gb r == kr) = false := beq_eq_false_iff_ne.mpr hkr
            simp [List.filter_cons, hb]

theorem insertGroup_keys (gs : List (GKey × List Row)) (k : GKey) (r : Row) :
    (insertGroup gs k r).map (fun g => keyReprL g.1) =
      if keyReprL k ∈ gs.map (fun g => keyReprL g.1)
      then gs.map fun g => keyReprL g.1
      else (gs.map fun g => keyReprL g.1) ++ [keyReprL k] := by
  induction gs with
  | nil => simp [insertGroup]
  | cons g0 rest ih =>
      by_cases h0 : keyEq g0.1 k = true
      · have h0' : keyReprL g0.1 = keyReprL k := by simpa [keyEq] using h0
        simp [insertGroup, h0, h0'.symm]
      · have h0' : keyReprL g0.1 ≠ keyReprL k := by simpa [keyEq] using h0
        have hne : keyReprL k ≠ keyReprL g0.1 := fun hh => h0' hh.symm
        by_cases hc : keyReprL k ∈ rest.map (fun g => keyReprL g.1)
        · simp [insertGroup, h0, ih, hc, hne]
        · simp [insertGroup, h0, ih, hc, hne]

theorem insertGroup_keys_mem (gs : List (GKey × List Row)) (k : GKey) (r : Row)
    (kr : List (Option String)) :
    kr ∈ (insertGroup gs k r).map (fun g => keyReprL g.1) ↔
      kr ∈ gs.map (fun g => keyReprL g.1) ∨ kr = keyReprL k := by
  rw [insertGroup_keys]
  split
  · rename_i hc
    constructor
    · exact Or.inl
    · rintro (h | rfl)
      · exact h
      · exact hc
  · simp

theorem insertGroup_keys_nodup (gs : List (GKey × List Row)) (k : GKey) (r : Row)
    (h : (gs.map fun g => keyReprL g.1).Nodup) :
    ((insertGroup gs k r).map fun g => keyReprL g.1).Nodup := by
  rw [insertGroup_keys]
  split
  · exact h
  · rename_i hc
    rw [List.nodup_append]
    refine ⟨h, List.nodup_singleton _, ?_⟩
    intro x hx hxk
    rw [List.mem_singleton] at hxk
    subst hxk
    exact hc hx

theorem buildGroups_keys (gb : List Nat) :
    ∀ (rows : List Row) (gs0 gs : List (GKey × List Row)),
      rows.foldlM (fun gs r => do
        let k ← keyOfE gb r
        pure (insertGroup gs k r)) gs0 = .ok gs →
      ((gs0.map fun g => keyReprL g.1).Nodup →
        (gs.map fun g => keyReprL g.1).Nodup) ∧
      ∀ kr, kr ∈ gs.map (fun g => keyReprL g.1) ↔
        (kr ∈ gs0.map (fun g => keyReprL g.1) ∨ kr ∈ rows.map (specKey gb)) := by
  intro rows
  induction rows with
  | nil =>
      intro gs0 gs h
      cases h
      exact ⟨id, fun kr => by simp⟩
  | cons r rest ih =>
      intro gs0 gs h
      rw [List.foldlM_cons] at h
      cases hk : keyOfE gb r with
      | error e => rw [hk] at h; simp [bind, Except.bind] at h
      | ok k =>
          rw [hk] at h
          simp only [bind, Except.bind, pure, Except.pure] at h
          have hrepr := keyOfE_ok_repr gb r k hk
          have hrec := ih (insertGroup gs0 k r) gs h
          constructor
          · intro hnd
            exact hrec.1 (insertGroup_keys_nodup gs0 k r hnd)
          · intro kr
            rw [hrec.2 kr, insertGroup_keys_mem, hrepr]
            simp [List.mem_map]
            constructor
            · rintro ((h1 | rfl) | h2)
              · exact Or.inl h1
              · exact Or.inr (Or.inl rfl)
              · exact Or.inr (Or.inr h2)
            · rintro (h1 | rfl | h2)
              · exact Or.inl (Or.inl h1)
              · exact Or.inl (Or.inr rfl)
              · exact Or.inr h2

theorem find?_key_of_mem (gs : List (GKey × List Row))
    (h : (gs.map fun g => keyReprL g.1).Nodup) (g : GKey × List Row) (hg : g ∈ gs) :
    gs.find? (fun g' => keyReprL g'.1 == keyReprL g.1) = some g := by
  induction gs with
  | nil => cases hg
  | cons g0 rest ih =>
      rcases List.mem_cons.mp hg with rfl | hmem
      · simp [List.find?_cons]
      · have hne : keyReprL g0.1 ≠ keyReprL g.1 := by
          intro hh
          have hmm : keyReprL g.1 ∈ rest.map (fun g => keyReprL g.1) :=
            List.mem_map_of_mem _ hmem
          rw [← hh] at hmm
          exact (List.nodup_cons.mp h).1 hmm
        have hb : (keyReprL g0.1 == keyReprL g.1) = false := beq_eq_false_iff_ne.mpr hne
        rw [List.find?_cons, hb]
        exact ih (List.nodup_cons.mp h).2 hmem

theorem mapM_ok_nth {ε α β : Type} (f : α → Except ε β) :
    ∀ (l : List α) (out : List β), l.mapM f = .ok out →
      out.length = l.length ∧
      ∀ i (hi : i < l.length), ∃ y, f (l.get ⟨i, hi⟩) = .ok y ∧ out.get? i = some y := by
  intro l
  induction l with
  | nil =>
      intro out h
      cases h
      exact ⟨rfl, fun i hi => absurd hi (Nat.not_lt_zero i)⟩
  | cons a l ih =>
      intro out h
      rw [List.mapM_cons] at h
      cases hfa : f a with
      | error e => rw [hfa] at h; simp [bind, Except.bind] at h
      | ok y =>
          rw [hfa] at h
          simp only [bind, Except.bind] at h
          cases hml : l.mapM f with
          | error e => rw [hml] at h; simp [bind, Except.bind] at h
          | ok ys =>
              rw [hml] at h
              simp only [bind, Except.bind, pure, Except.pure, Except.ok.injEq] at h
              subst h
              obtain ⟨hlen, hnth⟩ := ih ys hml
              refine ⟨by simp [hlen], ?_⟩
              intro i hi
              cases i with
              | zero => exact ⟨y, hfa, rfl⟩
              | succ j =>
                  obtain ⟨z, hz, hnz⟩ := hnth j (Nat.lt_of_succ_lt_succ hi)
                  exact ⟨z, hz, hnz⟩

theorem except_bind_eq_ok {ε α β : Type} (x : Except ε α) (f : α → Except ε β)
    (y : β) (h : x >>= f = .ok y) : ∃ v, x = .ok v ∧ f v = .ok y := by
  cases x with
  | error e => simp [bind, Except.bind] at h
  | ok v => exact ⟨v, rfl, h⟩

theorem buildGroups_props (gb : List Nat) (rows : List Row)
    (gs : List (GKey × List Row)) (h : buildGroups gb rows = .ok gs) :
    (gs.map fun g => keyReprL g.1).Nodup ∧
    (∀ g ∈ gs, g.2 = rows.filter fun r => specKey gb r == keyReprL g.1) ∧
    gs.length = (rows.map (specKey gb)).toFinset.card := by
  rw [buildGroups] at h
  have hkeys := buildGroups_keys gb rows [] gs h
  have hnd : (gs.map fun g => keyReprL g.1).Nodup := hkeys.1 (by simp)
  have hmem : ∀ kr, kr ∈ gs.map (fun g => keyReprL g.1) ↔
      kr ∈ rows.map (specKey gb) := by
    intro kr; rw [hkeys.2 kr]; simp
  have hrows := buildGroups_rows gb rows [] gs h
  refine ⟨hnd, ?_, ?_⟩
  · intro g hg
    have hfind := find?_key_of_mem gs hnd g hg
    have hgr := hrows (keyReprL g.1)
    rw [groupRows, hfind] at hgr
    simpa [groupRows] using hgr
  · have h1 : gs.length = (gs.map fun g => keyReprL g.1).length := by simp
    have h2 : (gs.map fun g => keyReprL g.1).toFinset.card =
        (gs.map fun g => keyReprL g.1).length := List.toFinset_card_of_nodup hnd
    have h3 : (gs.map fun g => keyReprL g.1).toFinset =
        (rows.map (specKey gb)).toFinset := by
      apply Finset.ext
      intro a
      simp only [List.mem_toFinset]
      exact hmem a
    rw [h1, ← h2, h3]

theorem groupByOpen_ok (colTypes : List DataType) (gb ag : List Nat)
    (aggs : List Agg) (rows : List Row) (st : GroupByState)
    (h : groupByOpen colTypes gb ag aggs rows = .ok st) :
    buildGroups gb rows = .ok st.groups ∧ st.gbCols = gb ∧ st.agCols = ag ∧
    st.aggs = aggs ∧ st.colTypes = colTypes ∧ st.resultsReturned = false := by
  unfold groupByOpen at h
  dsimp only at h
  split_ifs at h with h1 h2 h3
  cases hbg : buildGroups gb rows with
      | error e => rw [hbg] at h; simp [bind, Except.bind] at h
      | ok gs =>
          rw [hbg] at h
          simp only [bind, Except.bind, pure, Except.pure, Except.ok.injEq] at h
          subst h
          exact ⟨rfl, rfl, rfl, rfl, rfl, rfl⟩

theorem groupByBatch_some (st : GroupByState) (out : List Row) (st' : GroupByState)
    (hrr : st.resultsReturned = false)
    (h : groupByBatch st = .ok (some out, st')) :
    st.groups.mapM (fun g : GKey × List Row => do
      let aggCells ← (st.agCols.zip st.aggs).mapM fun ca : Nat × Agg => do
        let fin ← aggFoldE ca.2 ca.1 g.2
        pure (cellOfOption ca.2.dtype fin.result)
      let keyCells := (st.gbCols.zip g.1).map fun cov : Nat × Option Value =>
        cellOfOption (st.colTypes.getD cov.1 .int64) cov.2
      pure (keyCells ++ aggCells)) = .ok out := by
  unfold groupByBatch at h
  rw [hrr] at h
  simp only [Bool.false_eq_true, if_false] at h
  split at h
  · simp at h
  · obtain ⟨out0, hX, hpure⟩ := except_bind_eq_ok _ _ _ h
    have hout : out0 = out := by
      simp only [pure, Except.pure, Except.ok.injEq, Prod.mk.injEq,
        Option.some.injEq] at hpure
      exact hpure.1
    subst hout
    exact hX

/-- C5: for every GroupBy over any child input, a productive
`next_batch` call emits exactly one row per distinct group key — keys
compared position-wise by the values' canonical string representations
(`specKey`/`keyReprL`), so the row count is the number of distinct key
images; each group holds exactly the input rows bearing its key, and
each output row is the group's key cells followed by aggregate cells
obtained by the naive recomputation `aggFoldE`: the aggregate is reset
and then fed every row of that group at the aggregate column. -/
theorem c5_groupby_rowcount_and_naive_recomputation
    (colTypes : List DataType) (gb ag : List Nat) (aggs : List Agg)
    (rows : List Row) (st st' : GroupByState) (out : List Row)
    (hopen : groupByOpen colTypes gb ag aggs rows = .ok st)
    (hbatch : groupByBatch st = .ok (some out, st')) :
    out.length = (rows.map (specKey gb)).toFinset.card ∧
    (st.groups.map fun g => keyReprL g.1).Nodup ∧
    (∀ g ∈ st.groups, g.2 = rows.filter fun r => specKey gb r == keyReprL g.1) ∧
    (∀ i (hi : i < st.groups.length), ∃ aggCells,
      ((st.agCols.zip st.aggs).mapM fun ca : Nat × Agg => do
        let fin ← aggFoldE ca.2 ca.1 (st.groups.get ⟨i, hi⟩).2
        pure (cellOfOption ca.2.dtype fin.result)) = .ok aggCells ∧
      out.get? i = some
        (((st.gbCols.zip (st.groups.get ⟨i, hi⟩).1).map fun cov : Nat × Option Value =>
          cellOfOption (st.colTypes.getD cov.1 .int64) cov.2) ++ aggCells)) := by
  obtain ⟨hbg, hgb, hag, haggs, hct, hrr⟩ := groupByOpen_ok _ _ _ _ _ _ hopen
  obtain ⟨hnd, hrows, hcount⟩ := buildGroups_props gb rows st.groups hbg
  have hmap := groupByBatch_some st out st' hrr hbatch
  obtain ⟨hlen, hnth⟩ := mapM_ok_nth _ st.groups out hmap
  refine ⟨by rw [hlen, hcount], hnd, hrows, ?_⟩
  intro i hi
  obtain ⟨y, hy, hny⟩ := hnth i hi
  dsimp only at hy
  obtain ⟨aggCells, hin, hpure⟩ := except_bind_eq_ok _ _ _ hy
  refine ⟨aggCells, hin, ?_⟩
  rw [hny]
  simp only [pure, Except.pure, Except.ok.injEq] at hpure
  rw [← hpure]

/-- C5 witness: the spec's example — rows `("A",1), ("A",2), ("A",3)`
grouped by the first column with SUM on the second yield exactly the one
row `("A", 6)`. -/
theorem c5_groupby_rowcount_and_naive_recomputation_witness :
    ([[Value.str "A", Value.int64 6]] : List Row).length =
      ((rowsA.map (specKey [0])).toFinset.card) ∧
    ((⟨[some (Value.str "A")], rowsA⟩ : GKey × List Row).2 =
      rowsA.filter fun r =>
        specKey [0] r == keyReprL (⟨[some (Value.str "A")], rowsA⟩ : GKey × List Row).1) ∧
    (∃ aggCells,
      ((stA.agCols.zip stA.aggs).mapM fun ca : Nat × Agg => do
        let fin ← aggFoldE ca.2 ca.1 (stA.groups.get ⟨0, by decide⟩).2
        pure (cellOfOption ca.2.dtype fin.result)) = .ok aggCells ∧
      ([[Value.str "A", Value.int64 6]] : List Row).get? 0 = some
        (((stA.gbCols.zip (stA.groups.get ⟨0, by decide⟩).1).map
            fun cov : Nat × Option Value =>
          cellOfOption (stA.colTypes.getD cov.1 .int64) cov.2) ++ aggCells)) := by
  have h := c5_groupby_rowcount_and_naive_recomputation [.string, .int64] [0] [1]
    [.sumInt 0] rowsA stA { stA with resultsReturned := true }
    [[Value.str "A", Value.int64 6]] rfl rfl
  exact ⟨h.1, h.2.2.1 ⟨[some (Value.str "A")], rowsA⟩ (by decide), h.2.2.2 0 (by decide)⟩

end MiniOlap
